import Mathlib

/-!
# FlowPDF placement engine: shallow embedding and verification

This file embeds the placement engine of `src/Test-twm0so/src/components/FlowPDF.jsx`
(the latest generation of the algorithm, the `fileClick` handler at lines 980-1625
together with its helpers `rectsOverlap`, `tryPlaceOnPage`, `checkColumnFullness`,
`collectArrowAnchors` post-processing, and the batch driver loop) into Lean and
proves the testable properties of the specification against it.

Conventions of the embedding:
* JS numbers are modelled by `ℚ` (all arithmetic in the engine is exact on the
  inputs it receives; there is no rounding in the placement logic itself).
* A rectangle's `geometricBounds` array `[top, left, bottom, right]` is the
  structure `Rect`.
* The InDesign document is the list of its pages; a page is the list of the
  rectangles placed on it (`page.rectangles`, in insertion order).  Anchor
  polygons are not members of `page.rectangles` and are modelled separately.
* Host interactions (file measurement via the temporary rectangle added and
  immediately removed again at lines 1443-1452, `rect.place`, toasts, React
  display state) are modelled by their net effect on the engine data: the
  measured width/height of an item is an input, a successful `rectangles.add`
  appends the committed bounds to the page, toasts and the `fileItems` display
  list are dropped.
* `getUploadedFileNames()` reads the React state captured when `fileClick` was
  created, so during one batch it always returns the owned-name set as of batch
  start (`ownedStale` below); the accumulating set written back through
  functional `setUploadedFileNames` updates is `uploadedNames`.
-/

/-- Bounds of a placed rectangle, in the order of the InDesign
`geometricBounds` array: `[top, left, bottom, right]`. -/
structure Rect where
  top : ℚ
  left : ℚ
  bottom : ℚ
  right : ℚ
deriving DecidableEq, Repr

/-- Lines 339-346: `rectsOverlap(r1, r2)`, the AABB separation test.
`r1`/`r2` are bounds arrays; `r2[0] >= r1[2]` is `r2.top ≥ r1.bottom`, etc. -/
def rectsOverlap (r1 r2 : Rect) : Bool :=
  !(decide (r2.top ≥ r1.bottom) || decide (r2.bottom ≤ r1.top) ||
    decide (r2.left ≥ r1.right) || decide (r2.right ≤ r1.left))

/-- One entry of `page.rectangles`: its bounds and the linked file name
(`graphic.itemLink.name`, absent when the frame has no readable link). -/
structure PRect where
  bounds : Rect
  fileName : Option String
deriving DecidableEq, Repr

/-- One record produced by `getExistingRects` (lines 1086-1114):
bounds plus the computed `isUploaded` flag. -/
structure ERect where
  bounds : Rect
  isUploaded : Bool
deriving DecidableEq, Repr

/-- The layout parameters read at lines 1009-1022.  `columnCount` models the
local `columnCount` constant, i.e. the value after the `|| 1` defaulting, so a
sane layout has `columnCount ≥ 1`. -/
structure Layout where
  pageWidth : ℚ
  pageHeight : ℚ
  topMargin : ℚ
  leftMargin : ℚ
  bottomMargin : ℚ
  rightMargin : ℚ
  columnGutter : ℚ
  columnCount : ℕ
deriving DecidableEq, Repr

/-- `usableWidth = pageWidth - leftMargin - rightMargin` (line 1020). -/
def usableWidth (L : Layout) : ℚ :=
  L.pageWidth - L.leftMargin - L.rightMargin

/-- `columnWidth = (usableWidth - columnGutter*(columnCount-1)) / columnCount`
(line 1021). -/
def columnWidth (L : Layout) : ℚ :=
  (usableWidth L - L.columnGutter * ((L.columnCount - 1 : ℕ) : ℚ)) / (L.columnCount : ℚ)

/-- Line 317: `COLUMN_FULL_THRESHOLD = 50`. -/
def COLUMN_FULL_THRESHOLD : ℚ := 50

/-- Line 316: `MAX_FILES_PER_BATCH = 50`. -/
def MAX_FILES_PER_BATCH : ℕ := 50

/-- Line 334: `ARROW_HEIGHT_PT = ICON_ARROW_HEIGHT * ICON_ARROW_SCALE = 18 * 1.25`. -/
def ARROW_HEIGHT_PT : ℚ := 18 * (125 / 100)

/-- Lines 1086-1114, `getExistingRects(page)`: every rectangle of the page with
`isUploaded` computed from the owned-name set visible to the batch
(the stale `getUploadedFileNames()` closure value). -/
def getExistingRects (owned : List String) (page : List PRect) : List ERect :=
  page.map fun r =>
    ⟨r.bounds, match r.fileName with
               | some n => owned.contains n
               | none => false⟩

/-- Ordering used by `rectsInColumn.sort((a, b) => a.bounds[0] - b.bounds[0])`
(line 1270). -/
def topLE (a b : ERect) : Prop := a.bounds.top ≤ b.bounds.top

instance : DecidableRel topLE := fun a b =>
  inferInstanceAs (Decidable (a.bounds.top ≤ b.bounds.top))

instance : IsTotal ERect topLE := ⟨fun a b => le_total a.bounds.top b.bounds.top⟩

instance : IsTrans ERect topLE := ⟨fun _ _ _ h1 h2 => le_trans h1 h2⟩

/-- Stable sort by ascending top edge, modelling the JS (stable) `Array.sort`
at line 1270. -/
def sortByTop (l : List ERect) : List ERect := l.insertionSort topLE

/-- The result object `{ success: true, columnIndex, bottomY }` of a successful
`tryPlaceOnPage`, extended with the bounds of the rectangle the engine added
(`page.rectangles.add({geometricBounds: candidate})`, lines 1308-1310). -/
structure PlaceResult where
  rect : Rect
  columnIndex : ℕ
  bottomY : ℚ
deriving DecidableEq, Repr

/-- Lines 1288-1315: the candidate-offset loop
`for (let offset = 0; offset <= 5; offset += 5)`.  The offset list is `[0, 5]`.
A candidate is accepted when its bottom stays within the gap and the page's
bottom margin and it overlaps no existing rectangle on the page. -/
def tryOffsets (all : List ERect) (usableBottom nextTop lastBottom fw fh columnStart : ℚ)
    (col : ℕ) : List ℚ → Option PlaceResult
  | [] => none
  | off :: rest =>
    let candidateTop := lastBottom + off
    let candidateBottom := candidateTop + fh
    if candidateBottom > nextTop ∨ candidateBottom > usableBottom then
      tryOffsets all usableBottom nextTop lastBottom fw fh columnStart col rest
    else
      let candidate : Rect := ⟨candidateTop, columnStart, candidateBottom, columnStart + fw⟩
      if all.all (fun r => !rectsOverlap candidate r.bounds) then
        some ⟨candidate, col, candidateBottom⟩
      else
        tryOffsets all usableBottom nextTop lastBottom fw fh columnStart col rest

/-- Lines 1275-1321: the walk over `rectsInColumn` tracking `lastBottom`.
`rem` is the still-unvisited suffix of the sorted `rectsInColumn`; the final
iteration (`i = rectsInColumn.length`) is the `[]` case, with
`nextTop = pageHeight - bottomMargin`. -/
def scanColumn (all : List ERect) (L : Layout) (fw fh columnStart : ℚ) (col : ℕ)
    (searchStartY : ℚ) : List ERect → ℚ → Option PlaceResult
  | [], lastBottom =>
    let nextTop := L.pageHeight - L.bottomMargin
    if nextTop > lastBottom ∧ lastBottom ≥ searchStartY ∧ nextTop - lastBottom ≥ fh then
      tryOffsets all (L.pageHeight - L.bottomMargin) nextTop lastBottom fw fh columnStart col [0, 5]
    else none
  | r :: rest, lastBottom =>
    if r.bounds.bottom < searchStartY then
      scanColumn all L fw fh columnStart col searchStartY rest (max lastBottom r.bounds.bottom)
    else
      let nextTop := r.bounds.top
      let attempt :=
        if nextTop > lastBottom ∧ lastBottom ≥ searchStartY ∧ nextTop - lastBottom ≥ fh then
          tryOffsets all (L.pageHeight - L.bottomMargin) nextTop lastBottom fw fh columnStart col [0, 5]
        else none
      match attempt with
      | some res => some res
      | none =>
        scanColumn all L fw fh columnStart col searchStartY rest
          (if r.bounds.bottom > lastBottom then r.bounds.bottom else lastBottom)

/-- Lines 1256-1322: one iteration of the `for (const col of columnIndices)`
loop.  `none` both when the column is out of range (line 1257), when the item
would cross the right margin (lines 1261-1263), and when no gap fits. -/
def tryColumn (L : Layout) (existingRects : List ERect) (fw fh : ℚ)
    (startColumn : ℕ) (minY : ℚ) (col : ℕ) : Option PlaceResult :=
  if col < L.columnCount then
    let columnStart := L.leftMargin + (col : ℚ) * (columnWidth L + L.columnGutter)
    let columnsNeeded : ℤ := ⌈fw / columnWidth L⌉
    let columnEnd := columnStart + (columnsNeeded : ℚ) * columnWidth L
    if columnEnd > L.pageWidth - L.rightMargin then none
    else
      let rectsInColumn := sortByTop (existingRects.filter fun r =>
        decide (r.bounds.left < columnEnd) && decide (r.bounds.right > columnStart))
      let searchStartY := if col = startColumn then max L.topMargin minY else L.topMargin
      scanColumn existingRects L fw fh columnStart col searchStartY rectsInColumn searchStartY
  else none

/-- First successful column among `cols`, in order. -/
def firstColumnPlacement (L : Layout) (existingRects : List ERect) (fw fh : ℚ)
    (startColumn : ℕ) (minY : ℚ) : List ℕ → Option PlaceResult
  | [] => none
  | c :: rest =>
    match tryColumn L existingRects fw fh startColumn minY c with
    | some res => some res
    | none => firstColumnPlacement L existingRects fw fh startColumn minY rest

/-- Lines 1247-1324: `tryPlaceOnPage(page, file, w, h, startColumn, minY, onlyColumn)`.
`columnIndices` is `[onlyColumn]` when given, else
`startColumn, startColumn+1, …, numColumns-1` (line 1252-1254). -/
def tryPlaceOnPage (L : Layout) (owned : List String) (page : List PRect)
    (fw fh : ℚ) (startColumn : ℕ) (minY : ℚ) (onlyColumn : Option ℕ) : Option PlaceResult :=
  let existingRects := getExistingRects owned page
  let columnIndices :=
    match onlyColumn with
    | some c => [c]
    | none => List.range' startColumn (L.columnCount - startColumn)
  firstColumnPlacement L existingRects fw fh startColumn minY columnIndices

/-- Lines 1326-1347: `checkColumnFullness(page, columnIndex)`.  Only rectangles
with `isUploaded` count toward the column's lowest Y. -/
def checkColumnFullness (L : Layout) (owned : List String) (page : List PRect)
    (columnIndex : ℕ) : Bool :=
  let existingRects := getExistingRects owned page
  let usableBottom := L.pageHeight - L.bottomMargin
  let colStart := L.leftMargin + (columnIndex : ℚ) * (columnWidth L + L.columnGutter)
  let colEnd := colStart + columnWidth L
  let uploadedRectsInColumn := existingRects.filter fun r =>
    r.isUploaded && decide (r.bounds.left < colEnd) && decide (r.bounds.right > colStart)
  let columnBottom := uploadedRectsInColumn.foldl
    (fun acc r => if r.bounds.bottom > acc then r.bounds.bottom else acc) L.topMargin
  decide (usableBottom - columnBottom < COLUMN_FULL_THRESHOLD)

/-- An arrow anchor as produced by `collectArrowAnchors` (lines 1116-1167):
page index, column index computed from the marker's horizontal position, and
the marker's top.  The polygon handle is dropped: removing the polygon from
the canvas is modelled by removing the anchor from the engine's list. -/
structure Anchor where
  pageIndex : ℕ
  columnIndex : ℕ
  top : ℚ
deriving DecidableEq, Repr

/-- Ordering of lines 1370-1374: by page index, then column index, then top. -/
def anchorLE (a b : Anchor) : Prop :=
  a.pageIndex < b.pageIndex ∨
    (a.pageIndex = b.pageIndex ∧
      (a.columnIndex < b.columnIndex ∨ (a.columnIndex = b.columnIndex ∧ a.top ≤ b.top)))

instance : DecidableRel anchorLE := fun _ _ =>
  inferInstanceAs (Decidable (_ ∨ _))

/-- The (stable) sort of the collected anchors, lines 1370-1374.
`collectArrowAnchors` already returns them sorted by `(pageIndex, top)`;
the driver re-sorts by `(pageIndex, columnIndex, top)`. -/
def sortAnchors (l : List Anchor) : List Anchor := l.insertionSort anchorLE

/-- The per-canvas cursor `{pageIndex, columnIndex, bottomY}`. -/
structure Cursor where
  pageIndex : ℕ
  columnIndex : ℕ
  bottomY : ℚ
deriving DecidableEq, Repr

/-- The per-document persisted state: the owned-name set and the stored
cursor (`activeColumn`), both keyed by the document id in the source. -/
structure DocState where
  ownedNames : List String
  activeColumn : Option Cursor
deriving DecidableEq, Repr

/-- One batch item after measurement: its file name and intrinsic size. -/
structure BatchItem where
  name : String
  width : ℚ
  height : ℚ
deriving DecidableEq, Repr

/-- Outcome recorded for one item (`updateItem(... status ...)`). -/
inductive ItemOutcome where
  | success
  | failed (msg : String)
deriving DecidableEq, Repr

/-- The engine's working state while a batch runs: the document pages, the
stale owned-name set read by `getExistingRects`, the accumulating owned-name
set, the batch cursor `batchPageIndex / batchColumnIndex / batchMinY`
(lines 1421-1423), the remaining anchors, and `anchorUsedThisBatch`. -/
structure BatchState where
  pages : List (List PRect)
  ownedStale : List String
  uploadedNames : List String
  batchPageIndex : ℕ
  batchColumnIndex : ℕ
  batchMinY : ℚ
  anchors : List Anchor
  anchorUsed : Bool
deriving DecidableEq, Repr

/-- The cursor triple of a batch state. -/
def cursorTripleOf (s : BatchState) : ℕ × ℕ × ℚ :=
  (s.batchPageIndex, s.batchColumnIndex, s.batchMinY)

/-- Append a committed rectangle to page `i` (`page.rectangles.add`). -/
def addRectToPage (pages : List (List PRect)) (i : ℕ) (r : PRect) : List (List PRect) :=
  pages.set i (pages.getD i [] ++ [r])

/-- Lines 1401-1414: `removeOverlappingAnchors(pageIndex, columnIndex, top, bottom)`
removes every remaining anchor on the same page and column whose
`[top, top + ARROW_HEIGHT_PT]` interval meets `[top, bottom]`. -/
def removeOverlappingAnchors (anchors : List Anchor) (p c : ℕ) (top bottom : ℚ) :
    List Anchor :=
  anchors.filter fun a =>
    let aBottom := a.top + ARROW_HEIGHT_PT
    !(decide (a.pageIndex = p) && decide (a.columnIndex = c) &&
      decide (max top a.top < min bottom aBottom))

/-- The common success block (lines 1522-1540, repeated at 1547-1561 and
1580-1595): commit the placed rectangle to page `p`, register the owned name,
move the batch cursor to the placement, and apply the column-fullness policy
on the updated page. -/
def commitPlace (L : Layout) (s : BatchState) (name : String) (p : ℕ)
    (res : PlaceResult) : BatchState :=
  let pages' := addRectToPage s.pages p ⟨res.rect, some name⟩
  let names' := List.insert name s.uploadedNames
  if checkColumnFullness L s.ownedStale (pages'.getD p []) res.columnIndex = true ∧
      res.columnIndex < L.columnCount - 1 then
    { s with pages := pages', uploadedNames := names', batchPageIndex := p,
             batchColumnIndex := res.columnIndex + 1, batchMinY := L.topMargin }
  else
    { s with pages := pages', uploadedNames := names', batchPageIndex := p,
             batchColumnIndex := res.columnIndex, batchMinY := res.bottomY }

/-- Intermediate result of the anchor branch (lines 1456-1512). -/
structure AnchorOut where
  anchors : List Anchor
  anchorUsed : Bool
  cp : ℕ
  cc : ℕ
  cm : ℚ
  placed : Option (ℕ × PlaceResult)
deriving Repr

/-- Lines 1456-1512: the anchor branch.  It runs only when no anchor has been
used this batch and anchors remain; it pops the first anchor, retries the
anchor's own column, then the columns after it on the same page, and on total
failure redirects the working cursor to the page after the anchor. -/
def anchorStage (L : Layout) (s : BatchState) (fw fh : ℚ) (cp cc : ℕ) (cm : ℚ) :
    AnchorOut :=
  match s.anchorUsed, s.anchors with
  | false, anchor :: rest =>
    let aPage := min anchor.pageIndex (s.pages.length - 1)
    let cm' := max L.topMargin anchor.top
    match tryPlaceOnPage L s.ownedStale (s.pages.getD aPage []) fw fh
        anchor.columnIndex cm' (some anchor.columnIndex) with
    | some res => ⟨rest, true, aPage, anchor.columnIndex, cm', some (aPage, res)⟩
    | none =>
      if anchor.columnIndex + 1 < L.columnCount then
        match tryPlaceOnPage L s.ownedStale (s.pages.getD aPage []) fw fh
            (anchor.columnIndex + 1) L.topMargin none with
        | some res => ⟨rest, true, aPage, anchor.columnIndex, cm', some (aPage, res)⟩
        | none => ⟨rest, true, aPage + 1, 0, L.topMargin, none⟩
      else ⟨rest, true, aPage + 1, 0, L.topMargin, none⟩
  | used, anchors => ⟨anchors, used, cp, cc, cm, none⟩

/-- Lines 1544-1564: the sweep over the pages strictly after the stored batch
page, each tried from column 0 at the top margin; `idxs` is the index list of
that `for` loop. -/
def sweepPages (L : Layout) (owned : List String) (pages : List (List PRect))
    (fw fh : ℚ) : List ℕ → Option (ℕ × PlaceResult)
  | [] => none
  | i :: rest =>
    match tryPlaceOnPage L owned (pages.getD i []) fw fh 0 L.topMargin none with
    | some res => some (i, res)
    | none => sweepPages L owned pages fw fh rest

/-- The required width of line 1571:
`columnsNeeded * columnWidth + (columnsNeeded - 1) * columnGutter`. -/
def requiredWidthFor (L : Layout) (fw : ℚ) : ℚ :=
  let columnsNeeded : ℤ := ⌈fw / columnWidth L⌉
  (columnsNeeded : ℚ) * columnWidth L + ((columnsNeeded - 1 : ℤ) : ℚ) * L.columnGutter

/-- Line 1574: the blank-page footprint test
`fileHeight <= usableBottom - topMargin && requiredWidth <= usableWidth`. -/
def fitsBlankPage (L : Layout) (fw fh : ℚ) : Bool :=
  decide (fh ≤ (L.pageHeight - L.bottomMargin) - L.topMargin) &&
  decide (requiredWidthFor L fw ≤ usableWidth L)

/-- Lines 1567-1607: the new-page stage.  A page is appended only when the
footprint fits a blank page; if the retry on the fresh page fails, the page is
removed again and the item fails; otherwise the item fails immediately. -/
def newPageStage (L : Layout) (s : BatchState) (name : String) (fw fh : ℚ) :
    BatchState × ItemOutcome :=
  if fitsBlankPage L fw fh = true then
    let newPages := s.pages ++ [[]]
    let newPageIndex := s.pages.length
    match tryPlaceOnPage L s.ownedStale [] fw fh 0 L.topMargin none with
    | some res =>
      (commitPlace L { s with pages := newPages } name newPageIndex res, ItemOutcome.success)
    | none =>
      ({ s with pages := newPages.eraseIdx newPageIndex },
        ItemOutcome.failed "File could not be placed on a new page.")
  else
    (s, ItemOutcome.failed "File is too large to fit on any page at original size.")

/-- Lines 1437-1441: clamp the working cursor when the stored page index is
out of range (`Math.max(0, doc.pages.length - 1)`, column 0, top margin). -/
def clampTriple (L : Layout) (s : BatchState) : ℕ × ℕ × ℚ :=
  if s.pages.length ≤ s.batchPageIndex then (s.pages.length - 1, 0, L.topMargin)
  else (s.batchPageIndex, s.batchColumnIndex, s.batchMinY)

/-- The state whose stored cursor already sits at the clamp target of
lines 1437-1441: last existing page, column 0, top margin. -/
def clampState (L : Layout) (s : BatchState) : BatchState :=
  { s with batchPageIndex := s.pages.length - 1, batchColumnIndex := 0, batchMinY := L.topMargin }

/-- The anchor branch applied after the clamp, as `processItem` runs it. -/
def stageA (L : Layout) (s : BatchState) (fw fh : ℚ) : AnchorOut :=
  anchorStage L s fw fh (clampTriple L s).1 (clampTriple L s).2.1 (clampTriple L s).2.2

/-- The batch state after the anchor branch (anchor list and flag updated,
nothing else; the document is untouched because `tryPlaceOnPage` mutates the
page only on success, which is recorded in `placed` and committed later). -/
def sAfter (L : Layout) (s : BatchState) (fw fh : ℚ) : BatchState :=
  { s with anchors := (stageA L s fw fh).anchors, anchorUsed := (stageA L s fw fh).anchorUsed }

/-- The placement found by the anchor branch or, failing that, by the current
working cursor's page (lines 1514-1520). -/
def placedOnCursor (L : Layout) (s : BatchState) (fw fh : ℚ) : Option (ℕ × PlaceResult) :=
  let A := stageA L s fw fh
  match A.placed with
  | some pr => some pr
  | none =>
    if A.cp < s.pages.length then
      match tryPlaceOnPage L s.ownedStale (s.pages.getD A.cp []) fw fh A.cc A.cm none with
      | some res => some (A.cp, res)
      | none => none
    else none

/-- The sweep result for one item: pages `batchPageIndex + 1 … pages.length - 1`
(line 1544 starts from the stored `batchPageIndex`, not the working cursor). -/
def sweepResult (L : Layout) (s : BatchState) (fw fh : ℚ) : Option (ℕ × PlaceResult) :=
  sweepPages L s.ownedStale s.pages fw fh
    (List.range' (s.batchPageIndex + 1) (s.pages.length - (s.batchPageIndex + 1)))

/-- Lines 1426-1614: processing of one batch item, given its measured size.
The per-item pacing delay, toasts and display updates are dropped. -/
def processItem (L : Layout) (s : BatchState) (name : String) (fw fh : ℚ) :
    BatchState × ItemOutcome :=
  let s1 := sAfter L s fw fh
  match placedOnCursor L s fw fh with
  | some (p, res) =>
    let s2 := commitPlace L s1 name p res
    ({ s2 with anchors :=
        removeOverlappingAnchors s2.anchors p res.columnIndex (res.bottomY - fh) res.bottomY },
      ItemOutcome.success)
  | none =>
    match sweepResult L s fw fh with
    | some (i, res) => (commitPlace L s1 name i res, ItemOutcome.success)
    | none => newPageStage L s1 name fw fh

/-- The item loop of lines 1426-1615. -/
def runItems (L : Layout) (s : BatchState) : List BatchItem → BatchState × List ItemOutcome
  | [] => (s, [])
  | it :: rest =>
    let r := processItem L s it.name it.width it.height
    let t := runItems L r.1 rest
    (t.1, r.2 :: t.2)

/-- Lines 1052-1084 (`detectDeletedFiles`): drop every owned name that no
longer appears as the linked file name of any rectangle of any page. -/
def reconcileOwned (names : List String) (pages : List (List PRect)) : List String :=
  names.filter fun n => pages.any fun pg => pg.any fun r => r.fileName = some n

/-- Lines 1376-1424: the batch-start cursor.  With no anchors the stored
cursor is used (default page 0 / column 0 / top margin).  Otherwise the cursor
is overridden to the first anchor (page clamped to the document, Y at least
the top margin), and every later anchor in the same page and column at or
above the override point is removed (the JS `filter((anchor, idx) => …)`). -/
def initBatchCursor (L : Layout) (numPages : ℕ) (stored : Option Cursor)
    (anchors : List Anchor) : (ℕ × ℕ × ℚ) × List Anchor :=
  match anchors with
  | [] =>
    let init := stored.getD ⟨0, 0, L.topMargin⟩
    ((init.pageIndex, init.columnIndex, init.bottomY), [])
  | first :: _ =>
    let aPage := min first.pageIndex (numPages - 1)
    let overrideY := max L.topMargin first.top
    let kept := (anchors.enum.filter fun ia =>
      !(decide (ia.1 ≠ 0) &&
        (decide (ia.2.pageIndex = aPage) && decide (ia.2.columnIndex = first.columnIndex) &&
          decide (ia.2.top ≤ overrideY)))).map Prod.snd
    ((aPage, first.columnIndex, overrideY), kept)

/-- The outcome of one `fileClick` batch as far as the engine state is
concerned: final pages, persisted owned names and cursor, surviving anchors,
the per-item outcomes, and whether the batch was rejected outright. -/
structure BatchOutput where
  pages : List (List PRect)
  ownedNames : List String
  activeColumn : Option Cursor
  anchors : List Anchor
  outcomes : List ItemOutcome
  rejected : Bool
deriving DecidableEq, Repr

/-- The engine state at the start of a non-rejected batch: owned names
reconciled (the accumulating set) while the read path keeps the stale
batch-start set, the cursor seeded by `initBatchCursor`, and
`anchorUsedThisBatch` false. -/
def initialBatchState (L : Layout) (pages : List (List PRect)) (stored : DocState)
    (anchors0 : List Anchor) : BatchState :=
  let owned := reconcileOwned stored.ownedNames pages
  let ini := initBatchCursor L pages.length stored.activeColumn (sortAnchors anchors0)
  ⟨pages, stored.ownedNames, owned, ini.1.1, ini.1.2.1, ini.1.2.2, ini.2, false⟩

/-- Lines 982-1625: one batch.  Items arrive already name-sorted (lines
1025-1027; sorting does not change the count).  A batch larger than
`MAX_FILES_PER_BATCH` returns at line 1034 before any reconciliation, anchor
work or placement.  Otherwise owned names are reconciled, anchors are sorted
and the first one may override the cursor, the items run one by one, and the
final cursor is persisted (lines 1617-1621). -/
def runBatch (L : Layout) (pages : List (List PRect)) (stored : DocState)
    (anchors0 : List Anchor) (items : List BatchItem) : BatchOutput :=
  if MAX_FILES_PER_BATCH < items.length then
    ⟨pages, stored.ownedNames, stored.activeColumn, anchors0, [], true⟩
  else
    let r := runItems L (initialBatchState L pages stored anchors0) items
    ⟨r.1.pages, r.1.uploadedNames,
      some ⟨r.1.batchPageIndex, r.1.batchColumnIndex, r.1.batchMinY⟩,
      r.1.anchors, r.2, false⟩

/-- Lexicographic order on `(pageIndex, columnIndex)` cursor positions. -/
def lexLE (a b : ℕ × ℕ) : Prop :=
  a.1 < b.1 ∨ (a.1 = b.1 ∧ a.2 ≤ b.2)

instance : DecidableRel lexLE := fun _ _ =>
  inferInstanceAs (Decidable (_ ∨ _))

/-- The `(pageIndex, columnIndex)` part of the batch cursor. -/
def cursorOf (s : BatchState) : ℕ × ℕ :=
  (s.batchPageIndex, s.batchColumnIndex)

/-- Well-formedness of a batch state, established by batch initialisation:
the document has a page, the stored batch page index is in range, and while
the batch-start anchor is still pending the cursor sits at or before it
(batch initialisation puts the cursor exactly on it). -/
def BatchInv (s : BatchState) : Prop :=
  s.pages ≠ [] ∧ s.batchPageIndex < s.pages.length ∧
    (s.anchorUsed = false → ∀ a ∈ s.anchors.head?,
      lexLE (cursorOf s) (min a.pageIndex (s.pages.length - 1), a.columnIndex))

/-- The sequence of batch-cursor `(pageIndex, columnIndex)` values visited
while processing `items`, starting from (and including) the state `s`. -/
def cursorTrace (L : Layout) (s : BatchState) : List BatchItem → List (ℕ × ℕ)
  | [] => [cursorOf s]
  | it :: rest => cursorOf s :: cursorTrace L (processItem L s it.name it.width it.height).1 rest

/-- No two rectangles of the page overlap. -/
def NoOverlapPage (pg : List PRect) : Prop :=
  pg.Pairwise fun a b => rectsOverlap a.bounds b.bounds = false

/-- No two rectangles of any page of the document overlap. -/
def NoOverlapDoc (pages : List (List PRect)) : Prop :=
  ∀ pg ∈ pages, NoOverlapPage pg

/-- A 3-column letter-ish layout used for the concrete checks:
page 540 x 792, margins 36, gutter 12, column width 148. -/
def sampleLayout : Layout := ⟨540, 792, 36, 36, 36, 36, 12, 3⟩

/-! ## Theorems -/

/-- C3: for every input batch with more than 50 items, the whole batch is
rejected: the pages, the persisted owned names and cursor, and the anchors are
all returned unchanged, no item outcome is produced, and the result reports
the rejection. -/
theorem batch_size_cap_rejects (L : Layout) (pages : List (List PRect))
    (stored : DocState) (anchors0 : List Anchor) (items : List BatchItem)
    (h : MAX_FILES_PER_BATCH < items.length) :
    runBatch L pages stored anchors0 items =
      ⟨pages, stored.ownedNames, stored.activeColumn, anchors0, [], true⟩ := by
  unfold runBatch
  rw [if_pos h]

/-- Witness for C3: a batch of 51 identical items is rejected with nothing
placed and nothing changed. -/
theorem batch_size_cap_rejects_witness :
    MAX_FILES_PER_BATCH < (List.replicate 51 (⟨"a", 10, 10⟩ : BatchItem)).length ∧
    runBatch sampleLayout [[]] ⟨["old"], none⟩ [⟨0, 0, 100⟩]
        (List.replicate 51 ⟨"a", 10, 10⟩) =
      ⟨[[]], ["old"], none, [⟨0, 0, 100⟩], [], true⟩ :=
  ⟨by decide, batch_size_cap_rejects _ _ _ _ _ (by decide)⟩

/-- C9 (implicit): the minimum-Y constraint applies only to the starting
column.  First conjunct: for any column other than the start column the
per-column attempt does not depend on `minY` at all (its gap search restarts
at the top margin).  Remaining conjuncts: a concrete placement where the
cursor demands `minY = 300` in column 0 and the item nevertheless lands in
column 1 at the top margin `36 < 300` of the same page. -/
theorem min_y_only_start_column :
    (∀ (L : Layout) (ex : List ERect) (fw fh : ℚ) (sc : ℕ) (m₁ m₂ : ℚ) (c : ℕ),
        c ≠ sc → tryColumn L ex fw fh sc m₁ c = tryColumn L ex fw fh sc m₂ c) ∧
    tryPlaceOnPage sampleLayout [] [⟨⟨300, 36, 720, 184⟩, none⟩] 100 100 0 300 none =
      some ⟨⟨36, 196, 136, 296⟩, 1, 136⟩ ∧
    (36 : ℚ) < 300 ∧ (0 : ℕ) < 1 := by
  have hceil : (⌈(25 : ℚ) / 37⌉ : ℤ) = 1 := by norm_num [Int.ceil_eq_iff]
  refine ⟨?_, ?_, by norm_num, by decide⟩
  · intro L ex fw fh sc m₁ m₂ c hc
    unfold tryColumn
    simp only [if_neg hc]
  · norm_num [tryPlaceOnPage, tryColumn, firstColumnPlacement, scanColumn, tryOffsets,
      sortByTop, getExistingRects, columnWidth, usableWidth, sampleLayout, rectsOverlap,
      topLE, List.insertionSort, List.orderedInsert, List.range', hceil]

/-- Witness for C9: the first conjunct applied at a concrete non-start
column. -/
theorem min_y_only_start_column_witness :
    tryColumn sampleLayout [] 100 100 0 5 1 = tryColumn sampleLayout [] 100 100 0 99 1 :=
  min_y_only_start_column.1 sampleLayout [] 100 100 0 5 99 1 (by decide)

/-- Indexed-filter helper: for a strictly positive start index the
`idx ≠ 0` conjunct of the anchor-removal predicate is always true. -/
theorem enumFrom_filter_snd (q : Anchor → Bool) (l : List Anchor) :
    ∀ n : ℕ, n ≠ 0 →
      ((List.enumFrom n l).filter fun ia =>
          !(decide (ia.1 ≠ 0) && q ia.2)).map Prod.snd
        = l.filter fun a => !(q a) := by
  induction l with
  | nil => intro n _; rfl
  | cons a l ih =>
    intro n hn
    have h1 : (decide (n ≠ 0) && q a) = q a := by simp [hn]
    simp only [List.enumFrom, List.filter_cons, h1]
    by_cases hq : q a = true
    · simp only [hq, Bool.not_true, Bool.false_eq_true, if_false]
      exact ih (n + 1) (by omega)
    · have hq' : q a = false := by simpa using hq
      simp only [hq', Bool.not_false, if_true, List.map_cons]
      rw [ih (n + 1) (by omega)]

/-- The JS `filter((anchor, idx) => …)` of lines 1387-1398 always keeps the
first anchor and filters the rest by the removal predicate. -/
theorem enum_filter_keep_head (q : Anchor → Bool) (first : Anchor) (rest : List Anchor) :
    (((first :: rest).enum.filter fun ia =>
        !(decide (ia.1 ≠ 0) && q ia.2)).map Prod.snd)
      = first :: (rest.filter fun a => !(q a)) := by
  have h0 : (decide ((0 : ℕ) ≠ 0) && q first) = false := by simp
  show (((List.enumFrom 0 (first :: rest)).filter fun ia =>
      !(decide (ia.1 ≠ 0) && q ia.2)).map Prod.snd) = _
  simp only [List.enumFrom, List.filter_cons, h0, Bool.not_false, if_true, List.map_cons]
  rw [enumFrom_filter_snd q rest 1 (by omega)]

/-- C4 counterexample: the claim says the stored cursor is overridden *only
if* the first anchor's position is at or before the stored cursor.  Here the
stored cursor is `(page 0, column 0, Y 100)` and the only anchor sits at
`(page 0, column 0, top 500)`, strictly after the cursor, yet batch
initialisation still overrides the cursor to the anchor (`Y 500`). -/
theorem anchor_override_cex :
    (initBatchCursor sampleLayout 1 (some ⟨0, 0, 100⟩) [⟨0, 0, 500⟩]).1 = (0, 0, (500 : ℚ)) ∧
    (initBatchCursor sampleLayout 1 (some ⟨0, 0, 100⟩) [⟨0, 0, 500⟩]).1 ≠ (0, 0, (100 : ℚ)) ∧
    (100 : ℚ) < 500 := by
  refine ⟨?_, ?_, by norm_num⟩
  · norm_num [initBatchCursor, sampleLayout, max_def]
  · norm_num [initBatchCursor, sampleLayout, max_def]

/-- C4 amended: at batch start, whenever at least one anchor exists the
stored cursor is *unconditionally* overridden to the first anchor (page
clamped to the document, Y at least the top margin), regardless of whether
the anchor lies before or after the stored cursor; and exactly those later
anchors in the same (clamped) page and column whose top is at or above the
override point are removed immediately. -/
theorem anchor_override_amended (L : Layout) (numPages : ℕ) (stored : Option Cursor)
    (first : Anchor) (rest : List Anchor) :
    (initBatchCursor L numPages stored (first :: rest)).1 =
      (min first.pageIndex (numPages - 1), first.columnIndex, max L.topMargin first.top) ∧
    ∀ a : Anchor, a ∈ (initBatchCursor L numPages stored (first :: rest)).2 ↔
      (a = first ∨ (a ∈ rest ∧
        ¬(a.pageIndex = min first.pageIndex (numPages - 1) ∧
          a.columnIndex = first.columnIndex ∧ a.top ≤ max L.topMargin first.top))) := by
  constructor
  · rfl
  · intro a
    have hk : (initBatchCursor L numPages stored (first :: rest)).2
        = first :: (rest.filter fun b =>
            !(decide (b.pageIndex = min first.pageIndex (numPages - 1)) &&
              decide (b.columnIndex = first.columnIndex) &&
              decide (b.top ≤ max L.topMargin first.top))) :=
      enum_filter_keep_head
        (fun b => decide (b.pageIndex = min first.pageIndex (numPages - 1)) &&
          decide (b.columnIndex = first.columnIndex) &&
          decide (b.top ≤ max L.topMargin first.top)) first rest
    rw [hk]
    simp only [List.mem_cons, List.mem_filter, Bool.not_eq_eq_eq_not, Bool.not_true,
      Bool.and_eq_false_iff, decide_eq_false_iff_not, Bool.and_eq_true, decide_eq_true_eq]
    tauto

theorem tryOffsets_some_spec (all : List ERect) (ub nt lb fw fh cs : ℚ) (col : ℕ) :
    ∀ (offs : List ℚ) (res : PlaceResult),
      tryOffsets all ub nt lb fw fh cs col offs = some res →
      res.columnIndex = col ∧
      res.rect = ⟨res.rect.top, cs, res.rect.top + fh, cs + fw⟩ ∧
      res.bottomY = res.rect.top + fh ∧
      (∃ off ∈ offs, res.rect.top = lb + off) ∧
      res.rect.top + fh ≤ nt ∧ res.rect.top + fh ≤ ub ∧
      (∀ e ∈ all, rectsOverlap res.rect e.bounds = false) := by
  intro offs
  induction offs with
  | nil => intro res h; simp [tryOffsets] at h
  | cons off rest ih =>
    intro res h
    unfold tryOffsets at h
    dsimp only at h
    split at h
    · obtain ⟨h1, h2, h3, hoff, h5, h6, h7⟩ := ih res h
      exact ⟨h1, h2, h3, by obtain ⟨o, ho, he⟩ := hoff; exact ⟨o, List.mem_cons_of_mem _ ho, he⟩, h5, h6, h7⟩
    · rename_i hguard
      push_neg at hguard
      split at h
      · rename_i hall
        apply Option.some_injective at h
        subst h
        refine ⟨rfl, rfl, rfl, ⟨off, List.mem_cons_self _ _, rfl⟩, hguard.1, hguard.2, ?_⟩
        intro e he
        have := List.all_eq_true.mp hall e he
        simpa using this
      · obtain ⟨h1, h2, h3, hoff, h5, h6, h7⟩ := ih res h
        exact ⟨h1, h2, h3, by obtain ⟨o, ho, he⟩ := hoff; exact ⟨o, List.mem_cons_of_mem _ ho, he⟩, h5, h6, h7⟩

theorem scanColumn_some_spec (all : List ERect) (L : Layout) (fw fh cs sy : ℚ) (col : ℕ) :
    ∀ (rem : List ERect) (lb : ℚ) (res : PlaceResult),
      scanColumn all L fw fh cs col sy rem lb = some res →
      res.columnIndex = col ∧
      res.rect = ⟨res.rect.top, cs, res.rect.top + fh, cs + fw⟩ ∧
      res.bottomY = res.rect.top + fh ∧
      res.rect.top + fh ≤ L.pageHeight - L.bottomMargin ∧
      (∀ e ∈ all, rectsOverlap res.rect e.bounds = false) := by
  intro rem
  induction rem with
  | nil =>
    intro lb res h
    unfold scanColumn at h
    dsimp only at h
    split at h
    · obtain ⟨h1, h2, h3, _, _, h6, h7⟩ := tryOffsets_some_spec all _ _ lb fw fh cs col _ res h
      exact ⟨h1, h2, h3, h6, h7⟩
    · exact absurd h (by simp)
  | cons r rest ih =>
    intro lb res h
    unfold scanColumn at h
    dsimp only at h
    split at h
    · exact ih _ res h
    · split at h
      · rename_i heq
        split at heq
        · obtain ⟨h1, h2, h3, _, _, h6, h7⟩ :=
            tryOffsets_some_spec all _ _ lb fw fh cs col _ _ heq
          cases h
          exact ⟨h1, h2, h3, h6, h7⟩
        · exact absurd heq (by simp)
      · exact ih _ res h

theorem tryColumn_some_spec (L : Layout) (ex : List ERect) (fw fh : ℚ) (sc : ℕ) (minY : ℚ)
    (c : ℕ) (res : PlaceResult) (h : tryColumn L ex fw fh sc minY c = some res) :
    res.columnIndex = c ∧ c < L.columnCount ∧
    res.bottomY = res.rect.top + fh ∧
    res.rect.top + fh ≤ L.pageHeight - L.bottomMargin ∧
    (∀ e ∈ ex, rectsOverlap res.rect e.bounds = false) := by
  unfold tryColumn at h
  split at h
  · rename_i hc
    dsimp only at h
    split at h
    · exact absurd h (by simp)
    · obtain ⟨h1, _, h3, h4, h5⟩ := scanColumn_some_spec ex L fw fh _ _ c _ _ res h
      exact ⟨h1, hc, h3, h4, h5⟩
  · exact absurd h (by simp)

theorem firstColumnPlacement_some (L : Layout) (ex : List ERect) (fw fh : ℚ)
    (sc : ℕ) (minY : ℚ) :
    ∀ (cols : List ℕ) (res : PlaceResult),
      firstColumnPlacement L ex fw fh sc minY cols = some res →
      ∃ c ∈ cols, tryColumn L ex fw fh sc minY c = some res := by
  intro cols
  induction cols with
  | nil => intro res h; simp [firstColumnPlacement] at h
  | cons c rest ih =>
    intro res h
    unfold firstColumnPlacement at h
    split at h
    · rename_i heq
      cases h
      exact ⟨c, List.mem_cons_self _ _, heq⟩
    · obtain ⟨c', hc', heq⟩ := ih res h
      exact ⟨c', List.mem_cons_of_mem _ hc', heq⟩

theorem getExistingRects_bounds (owned : List String) (page : List PRect) :
    ∀ r ∈ page, ∃ e ∈ getExistingRects owned page, e.bounds = r.bounds := by
  intro r hr
  refine ⟨_, List.mem_map_of_mem _ hr, rfl⟩

theorem tryPlaceOnPage_some_spec (L : Layout) (owned : List String) (page : List PRect)
    (fw fh : ℚ) (sc : ℕ) (minY : ℚ) (oc : Option ℕ) (res : PlaceResult)
    (h : tryPlaceOnPage L owned page fw fh sc minY oc = some res) :
    (∀ r ∈ page, rectsOverlap res.rect r.bounds = false) ∧
    res.bottomY = res.rect.top + fh ∧
    res.columnIndex < L.columnCount ∧
    (oc = none → sc ≤ res.columnIndex) ∧
    (∀ c₀, oc = some c₀ → res.columnIndex = c₀) := by
  unfold tryPlaceOnPage at h
  dsimp only at h
  obtain ⟨c, hc, heq⟩ := firstColumnPlacement_some L _ fw fh sc minY _ res h
  obtain ⟨h1, h2, h3, _, h5⟩ := tryColumn_some_spec L _ fw fh sc minY c res heq
  refine ⟨?_, h3, h1 ▸ h2, ?_, ?_⟩
  · intro r hr
    obtain ⟨e, he, hb⟩ := getExistingRects_bounds owned page r hr
    rw [← hb]
    exact h5 e he
  · intro hoc
    subst hoc
    rw [h1]
    exact (List.mem_range'_1.mp hc).1
  · intro c₀ hoc
    subst hoc
    have hmem : c ∈ [c₀] := hc
    simp only [List.mem_singleton] at hmem
    rw [h1, hmem]

theorem eraseIdx_concat {α : Type} (l : List α) (x : α) :
    (l ++ [x]).eraseIdx l.length = l := by
  induction l with
  | nil => rfl
  | cons a l ih => simpa [List.eraseIdx] using ih

theorem commitPlace_fields (L : Layout) (s : BatchState) (name : String) (p : ℕ)
    (res : PlaceResult) :
    (commitPlace L s name p res).pages = addRectToPage s.pages p ⟨res.rect, some name⟩ ∧
    (commitPlace L s name p res).uploadedNames = List.insert name s.uploadedNames ∧
    (commitPlace L s name p res).ownedStale = s.ownedStale ∧
    (commitPlace L s name p res).anchors = s.anchors ∧
    (commitPlace L s name p res).anchorUsed = s.anchorUsed ∧
    (commitPlace L s name p res).batchPageIndex = p ∧
    res.columnIndex ≤ (commitPlace L s name p res).batchColumnIndex := by
  unfold commitPlace
  dsimp only
  split <;> simp

theorem commitPlace_cursor (L : Layout) (s : BatchState) (name : String) (p : ℕ)
    (res : PlaceResult) :
    cursorTripleOf (commitPlace L s name p res) =
      if checkColumnFullness L s.ownedStale
            ((addRectToPage s.pages p ⟨res.rect, some name⟩).getD p []) res.columnIndex = true ∧
          res.columnIndex < L.columnCount - 1 then
        (p, res.columnIndex + 1, L.topMargin)
      else (p, res.columnIndex, res.bottomY) := by
  unfold commitPlace cursorTripleOf
  dsimp only
  split <;> rfl

theorem sweepPages_some (L : Layout) (owned : List String) (pages : List (List PRect))
    (fw fh : ℚ) :
    ∀ (idxs : List ℕ) (i : ℕ) (res : PlaceResult),
      sweepPages L owned pages fw fh idxs = some (i, res) →
      i ∈ idxs ∧ tryPlaceOnPage L owned (pages.getD i []) fw fh 0 L.topMargin none = some res := by
  intro idxs
  induction idxs with
  | nil => intro i res h; simp [sweepPages] at h
  | cons j rest ih =>
    intro i res h
    unfold sweepPages at h
    split at h
    · rename_i heq
      cases h
      exact ⟨List.mem_cons_self _ _, heq⟩
    · obtain ⟨hmem, heq⟩ := ih i res h
      exact ⟨List.mem_cons_of_mem _ hmem, heq⟩

theorem processItem_shape (L : Layout) (s : BatchState) (name : String) (fw fh : ℚ) :
    (∃ p res, placedOnCursor L s fw fh = some (p, res) ∧
      processItem L s name fw fh =
        ({ commitPlace L (sAfter L s fw fh) name p res with
            anchors := removeOverlappingAnchors (commitPlace L (sAfter L s fw fh) name p res).anchors
              p res.columnIndex (res.bottomY - fh) res.bottomY }, ItemOutcome.success)) ∨
    (placedOnCursor L s fw fh = none ∧
      ∃ i res, sweepResult L s fw fh = some (i, res) ∧
        processItem L s name fw fh = (commitPlace L (sAfter L s fw fh) name i res, ItemOutcome.success)) ∨
    (placedOnCursor L s fw fh = none ∧ sweepResult L s fw fh = none ∧
      processItem L s name fw fh = newPageStage L (sAfter L s fw fh) name fw fh) := by
  unfold processItem
  dsimp only
  rcases hpc : placedOnCursor L s fw fh with _ | ⟨p, res⟩
  · rcases hsw : sweepResult L s fw fh with _ | ⟨i, res⟩
    · exact Or.inr (Or.inr ⟨rfl, rfl, rfl⟩)
    · exact Or.inr (Or.inl ⟨rfl, i, res, rfl, rfl⟩)
  · exact Or.inl ⟨p, res, rfl, rfl⟩

theorem sAfter_fields (L : Layout) (s : BatchState) (fw fh : ℚ) :
    (sAfter L s fw fh).pages = s.pages ∧
    (sAfter L s fw fh).ownedStale = s.ownedStale ∧
    (sAfter L s fw fh).uploadedNames = s.uploadedNames ∧
    (sAfter L s fw fh).batchPageIndex = s.batchPageIndex ∧
    (sAfter L s fw fh).batchColumnIndex = s.batchColumnIndex ∧
    (sAfter L s fw fh).batchMinY = s.batchMinY ∧
    (sAfter L s fw fh).anchors = (stageA L s fw fh).anchors ∧
    (sAfter L s fw fh).anchorUsed = (stageA L s fw fh).anchorUsed :=
  ⟨rfl, rfl, rfl, rfl, rfl, rfl, rfl, rfl⟩

theorem stageA_spec (L : Layout) (s : BatchState) (fw fh : ℚ) :
    ((s.anchorUsed = true ∨ s.anchors = []) ∧
      stageA L s fw fh = ⟨s.anchors, s.anchorUsed, (clampTriple L s).1,
        (clampTriple L s).2.1, (clampTriple L s).2.2, none⟩) ∨
    (∃ anchor rest, s.anchorUsed = false ∧ s.anchors = anchor :: rest ∧
      (stageA L s fw fh).anchors = rest ∧ (stageA L s fw fh).anchorUsed = true ∧
      ((∃ res, (stageA L s fw fh).placed = some (min anchor.pageIndex (s.pages.length - 1), res) ∧
         (stageA L s fw fh).cp = min anchor.pageIndex (s.pages.length - 1) ∧
         anchor.columnIndex ≤ res.columnIndex ∧
         (∃ sc mY ocol, tryPlaceOnPage L s.ownedStale
            (s.pages.getD (min anchor.pageIndex (s.pages.length - 1)) []) fw fh sc mY ocol
              = some res)) ∨
       ((stageA L s fw fh).placed = none ∧
         (stageA L s fw fh).cp = min anchor.pageIndex (s.pages.length - 1) + 1 ∧
         (stageA L s fw fh).cc = 0 ∧ (stageA L s fw fh).cm = L.topMargin))) := by
  rcases hu : s.anchorUsed with _ | _
  · rcases ha : s.anchors with _ | ⟨anchor, rest⟩
    · refine Or.inl ⟨Or.inr rfl, ?_⟩
      simp only [stageA, anchorStage, hu, ha]
    · refine Or.inr ⟨anchor, rest, rfl, rfl, ?_⟩
      rcases h1 : tryPlaceOnPage L s.ownedStale
          (s.pages.getD (min anchor.pageIndex (s.pages.length - 1)) []) fw fh
          anchor.columnIndex (max L.topMargin anchor.top) (some anchor.columnIndex)
        with _ | res1
      · by_cases h2 : anchor.columnIndex + 1 < L.columnCount
        · rcases h3 : tryPlaceOnPage L s.ownedStale
              (s.pages.getD (min anchor.pageIndex (s.pages.length - 1)) []) fw fh
              (anchor.columnIndex + 1) L.topMargin none
            with _ | res2
          · have hA : stageA L s fw fh =
                ⟨rest, true, min anchor.pageIndex (s.pages.length - 1) + 1, 0, L.topMargin, none⟩ := by
              simp only [stageA, anchorStage, hu, ha, h1, h3, if_pos h2, ite_self]
            rw [hA]
            exact ⟨rfl, rfl, Or.inr ⟨rfl, rfl, rfl, rfl⟩⟩
          · have hA : stageA L s fw fh =
                ⟨rest, true, min anchor.pageIndex (s.pages.length - 1), anchor.columnIndex,
                  max L.topMargin anchor.top,
                  some (min anchor.pageIndex (s.pages.length - 1), res2)⟩ := by
              simp only [stageA, anchorStage, hu, ha, h1, h3, if_pos h2, ite_self]
            have hcol : anchor.columnIndex + 1 ≤ res2.columnIndex :=
              (tryPlaceOnPage_some_spec L _ _ fw fh _ _ none res2 h3).2.2.2.1 rfl
            rw [hA]
            exact ⟨rfl, rfl, Or.inl ⟨res2, rfl, rfl, le_trans (Nat.le_succ _) hcol,
              anchor.columnIndex + 1, L.topMargin, none, h3⟩⟩
        · have hA : stageA L s fw fh =
              ⟨rest, true, min anchor.pageIndex (s.pages.length - 1) + 1, 0, L.topMargin, none⟩ := by
            simp only [stageA, anchorStage, hu, ha, h1, if_neg h2, ite_self]
          rw [hA]
          exact ⟨rfl, rfl, Or.inr ⟨rfl, rfl, rfl, rfl⟩⟩
      · have hcol : res1.columnIndex = anchor.columnIndex :=
          (tryPlaceOnPage_some_spec L _ _ fw fh _ _ _ res1 h1).2.2.2.2 _ rfl
        have hA : stageA L s fw fh =
            ⟨rest, true, min anchor.pageIndex (s.pages.length - 1), anchor.columnIndex,
              max L.topMargin anchor.top,
              some (min anchor.pageIndex (s.pages.length - 1), res1)⟩ := by
          simp only [stageA, anchorStage, hu, ha, h1]
        rw [hA]
        exact ⟨rfl, rfl, Or.inl ⟨res1, rfl, rfl, hcol.ge,
          anchor.columnIndex, max L.topMargin anchor.top, some anchor.columnIndex, h1⟩⟩
  · refine Or.inl ⟨Or.inl rfl, ?_⟩
    simp only [stageA, anchorStage, hu]

theorem placedOnCursor_some_spec (L : Layout) (s : BatchState) (fw fh : ℚ)
    (p : ℕ) (res : PlaceResult)
    (h : placedOnCursor L s fw fh = some (p, res)) :
    (stageA L s fw fh).placed = some (p, res) ∨
    ((stageA L s fw fh).placed = none ∧ p = (stageA L s fw fh).cp ∧ p < s.pages.length ∧
      tryPlaceOnPage L s.ownedStale (s.pages.getD p []) fw fh (stageA L s fw fh).cc
        (stageA L s fw fh).cm none = some res) := by
  unfold placedOnCursor at h
  dsimp only at h
  rcases hA : (stageA L s fw fh).placed with _ | pr
  · rw [hA] at h
    dsimp only at h
    split at h
    · rename_i hcp
      split at h
      · rename_i heq
        cases h
        exact Or.inr ⟨rfl, rfl, hcp, heq⟩
      · exact absurd h (by simp)
    · exact absurd h (by simp)
  · rw [hA] at h
    dsimp only at h
    cases h
    exact Or.inl rfl

theorem commitPlace_congr (L : Layout) (a b : BatchState) (name : String) (p : ℕ)
    (res : PlaceResult) (hpg : a.pages = b.pages) (hos : a.ownedStale = b.ownedStale)
    (hun : a.uploadedNames = b.uploadedNames) (han : a.anchors = b.anchors)
    (hau : a.anchorUsed = b.anchorUsed) :
    commitPlace L a name p res = commitPlace L b name p res := by
  cases a
  cases b
  simp only at hpg hos hun han hau
  subst hpg hos hun han hau
  rfl

theorem newPageStage_congr (L : Layout) (a b : BatchState) (name : String) (fw fh : ℚ)
    (hpg : a.pages = b.pages) (hos : a.ownedStale = b.ownedStale)
    (hun : a.uploadedNames = b.uploadedNames) (han : a.anchors = b.anchors)
    (hau : a.anchorUsed = b.anchorUsed) :
    (newPageStage L a name fw fh).1.pages = (newPageStage L b name fw fh).1.pages ∧
    (newPageStage L a name fw fh).1.uploadedNames = (newPageStage L b name fw fh).1.uploadedNames ∧
    (newPageStage L a name fw fh).1.anchors = (newPageStage L b name fw fh).1.anchors ∧
    (newPageStage L a name fw fh).2 = (newPageStage L b name fw fh).2 := by
  cases a
  cases b
  simp only at hpg hos hun han hau
  subst hpg hos hun han hau
  unfold newPageStage
  dsimp only
  split
  · split <;> exact ⟨rfl, rfl, rfl, rfl⟩
  · exact ⟨rfl, rfl, rfl, rfl⟩

/-- C10 (implicit): when the working cursor's page index is at or past the
document's page count, the engine clamps it to the last existing page with
column 0 and the top margin before any page lookup, so the item is processed
exactly as if the cursor had been stored there: the resulting document, owned
names, anchors and the item outcome coincide with those of a run started from
the clamped cursor, and the clamped page index is in range. -/
theorem cursor_clamp_safe (L : Layout) (s : BatchState) (name : String) (fw fh : ℚ)
    (hne : s.pages ≠ []) (hge : s.pages.length ≤ s.batchPageIndex) :
    (processItem L s name fw fh).1.pages = (processItem L (clampState L s) name fw fh).1.pages ∧
    (processItem L s name fw fh).1.uploadedNames =
      (processItem L (clampState L s) name fw fh).1.uploadedNames ∧
    (processItem L s name fw fh).1.anchors =
      (processItem L (clampState L s) name fw fh).1.anchors ∧
    (processItem L s name fw fh).2 = (processItem L (clampState L s) name fw fh).2 ∧
    s.pages.length - 1 < s.pages.length := by
  have hlen : 0 < s.pages.length := List.length_pos.mpr hne
  have h1 : clampTriple L s = (s.pages.length - 1, 0, L.topMargin) := by
    unfold clampTriple
    rw [if_pos hge]
  have h2 : clampTriple L (clampState L s) = (s.pages.length - 1, 0, L.topMargin) := by
    unfold clampTriple clampState
    rw [if_neg (by show ¬(s.pages.length ≤ s.pages.length - 1); omega)]
  have hA : stageA L s fw fh = stageA L (clampState L s) fw fh := by
    unfold stageA
    rw [h1, h2]
    rfl
  have hP : placedOnCursor L s fw fh = placedOnCursor L (clampState L s) fw fh := by
    unfold placedOnCursor
    rw [hA]
    rfl
  have hS : sweepResult L s fw fh = none := by
    unfold sweepResult
    have e1 : s.pages.length - (s.batchPageIndex + 1) = 0 := by omega
    rw [e1]
    rfl
  have hS2 : sweepResult L (clampState L s) fw fh = none := by
    unfold sweepResult clampState
    have e2 : s.pages.length - ((s.pages.length - 1) + 1) = 0 := by omega
    rw [e2]
    rfl
  have hsa : (sAfter L s fw fh).pages = (sAfter L (clampState L s) fw fh).pages := rfl
  have hsa2 : (sAfter L s fw fh).ownedStale = (sAfter L (clampState L s) fw fh).ownedStale := rfl
  have hsa3 : (sAfter L s fw fh).uploadedNames =
      (sAfter L (clampState L s) fw fh).uploadedNames := rfl
  have hsa4 : (sAfter L s fw fh).anchors = (sAfter L (clampState L s) fw fh).anchors := by
    unfold sAfter
    rw [hA]
  have hsa5 : (sAfter L s fw fh).anchorUsed = (sAfter L (clampState L s) fw fh).anchorUsed := by
    unfold sAfter
    rw [hA]
  refine ⟨?_, ?_, ?_, ?_, by omega⟩ <;>
  · rcases processItem_shape L s name fw fh with ⟨p, res, hpc, heq⟩ | ⟨_, i, res, hsw, _⟩ |
      ⟨hpc, hsw, heq⟩
    · have hpc2 : placedOnCursor L (clampState L s) fw fh = some (p, res) := hP ▸ hpc
      rcases processItem_shape L (clampState L s) name fw fh with
        ⟨p2, res2, hpc3, heq2⟩ | ⟨hpc3, _, _, _, _⟩ | ⟨hpc3, _, _⟩
      · rw [hpc2] at hpc3
        cases hpc3
        have hc := commitPlace_congr L (sAfter L s fw fh) (sAfter L (clampState L s) fw fh)
          name p res hsa hsa2 hsa3 hsa4 hsa5
        rw [heq, heq2, hc]
      · rw [hpc2] at hpc3
        cases hpc3
      · rw [hpc2] at hpc3
        cases hpc3
    · rw [hS] at hsw
      cases hsw
    · have hpc2 : placedOnCursor L (clampState L s) fw fh = none := hP ▸ hpc
      rcases processItem_shape L (clampState L s) name fw fh with
        ⟨p2, res2, hpc3, heq2⟩ | ⟨_, i2, res2, hsw3, _⟩ | ⟨_, _, heq2⟩
      · rw [hpc2] at hpc3
        cases hpc3
      · rw [hS2] at hsw3
        cases hsw3
      · have := newPageStage_congr L (sAfter L s fw fh) (sAfter L (clampState L s) fw fh)
          name fw fh hsa hsa2 hsa3 hsa4 hsa5
        rw [heq, heq2]
        tauto

theorem newPageStage_failed_spec (L : Layout) (s : BatchState) (name : String)
    (fw fh : ℚ) (msg : String)
    (h : (newPageStage L s name fw fh).2 = ItemOutcome.failed msg) :
    (newPageStage L s name fw fh).1.pages = s.pages ∧
    (newPageStage L s name fw fh).1.uploadedNames = s.uploadedNames ∧
    (newPageStage L s name fw fh).1.anchors = s.anchors ∧
    (newPageStage L s name fw fh).1.batchPageIndex = s.batchPageIndex ∧
    (newPageStage L s name fw fh).1.batchColumnIndex = s.batchColumnIndex ∧
    (newPageStage L s name fw fh).1.batchMinY = s.batchMinY ∧
    msg = (if fitsBlankPage L fw fh = true then "File could not be placed on a new page."
           else "File is too large to fit on any page at original size.") := by
  unfold newPageStage at h ⊢
  dsimp only at h ⊢
  rcases hfits : fitsBlankPage L fw fh with _ | _
  · simp only [hfits, Bool.false_eq_true, if_false] at h ⊢
    cases h
    simp
  · simp only [hfits, if_true] at h ⊢
    rcases hres : tryPlaceOnPage L s.ownedStale [] fw fh 0 L.topMargin none with _ | res
    · rw [hres] at h
      dsimp only at h ⊢
      cases h
      simp [eraseIdx_concat]
    · rw [hres] at h
      dsimp only at h
      exact absurd h (by simp)

theorem addRectToPage_length (pages : List (List PRect)) (i : ℕ) (r : PRect) :
    (addRectToPage pages i r).length = pages.length := by
  unfold addRectToPage
  exact List.length_set pages i _

/-- C7 amended: cursor advance and owned-name registration happen only on a
successful commit — an item that ends failed leaves the document pages, the
owned names and the batch cursor exactly as they were.  (The claim as stated
also asserted this for anchor removal; that part is refuted by
`anchor_consumed_on_failure_cex`.) -/
theorem failed_item_state_unchanged (L : Layout) (s : BatchState) (name : String)
    (fw fh : ℚ) (msg : String)
    (h : (processItem L s name fw fh).2 = ItemOutcome.failed msg) :
    (processItem L s name fw fh).1.pages = s.pages ∧
    (processItem L s name fw fh).1.uploadedNames = s.uploadedNames ∧
    (processItem L s name fw fh).1.batchPageIndex = s.batchPageIndex ∧
    (processItem L s name fw fh).1.batchColumnIndex = s.batchColumnIndex ∧
    (processItem L s name fw fh).1.batchMinY = s.batchMinY := by
  rcases processItem_shape L s name fw fh with ⟨p, res, _, heq⟩ | ⟨_, i, res, _, heq⟩ |
    ⟨_, _, heq⟩
  · rw [heq] at h
    exact absurd h (by simp)
  · rw [heq] at h
    exact absurd h (by simp)
  · rw [heq] at h ⊢
    obtain ⟨h1, h2, _, h4, h5, h6, _⟩ :=
      newPageStage_failed_spec L (sAfter L s fw fh) name fw fh msg h
    exact ⟨h1, h2, h4, h5, h6⟩

/-- C8: an item that fails leaves the page set exactly as it was (a page
created for the retry is rolled back; with an unfit footprint no page is
created at all), the failure message identifies which of the two paths was
taken, and the page count can grow only by one page, only when the blank-page
footprint test passes, and only for a successful item. -/
theorem new_page_rollback (L : Layout) (s : BatchState) (name : String) (fw fh : ℚ) :
    (∀ msg, (processItem L s name fw fh).2 = ItemOutcome.failed msg →
      (processItem L s name fw fh).1.pages = s.pages ∧
      msg = (if fitsBlankPage L fw fh = true then "File could not be placed on a new page."
             else "File is too large to fit on any page at original size.")) ∧
    ((processItem L s name fw fh).1.pages.length = s.pages.length ∨
      ((processItem L s name fw fh).1.pages.length = s.pages.length + 1 ∧
        fitsBlankPage L fw fh = true ∧ (processItem L s name fw fh).2 = ItemOutcome.success)) := by
  constructor
  · intro msg h
    rcases processItem_shape L s name fw fh with ⟨p, res, _, heq⟩ | ⟨_, i, res, _, heq⟩ |
      ⟨_, _, heq⟩
    · rw [heq] at h
      exact absurd h (by simp)
    · rw [heq] at h
      exact absurd h (by simp)
    · rw [heq] at h ⊢
      obtain ⟨h1, _, _, _, _, _, h7⟩ :=
        newPageStage_failed_spec L (sAfter L s fw fh) name fw fh msg h
      exact ⟨h1, h7⟩
  · rcases processItem_shape L s name fw fh with ⟨p, res, _, heq⟩ | ⟨_, i, res, _, heq⟩ |
      ⟨_, _, heq⟩
    · rw [heq]
      left
      show (commitPlace L (sAfter L s fw fh) name p res).pages.length = s.pages.length
      rw [(commitPlace_fields L (sAfter L s fw fh) name p res).1]
      exact addRectToPage_length _ _ _
    · rw [heq]
      left
      show (commitPlace L (sAfter L s fw fh) name i res).pages.length = s.pages.length
      rw [(commitPlace_fields L (sAfter L s fw fh) name i res).1]
      exact addRectToPage_length _ _ _
    · rw [heq]
      unfold newPageStage
      dsimp only
      rcases hfits : fitsBlankPage L fw fh with _ | _
      · simp only [hfits, Bool.false_eq_true, if_false]
        left
        rfl
      · simp only [hfits, if_true]
        rcases hres : tryPlaceOnPage L (sAfter L s fw fh).ownedStale [] fw fh 0 L.topMargin none
          with _ | res
        · left
          dsimp only
          show (((sAfter L s fw fh).pages ++ [[]]).eraseIdx
            (sAfter L s fw fh).pages.length).length = s.pages.length
          rw [eraseIdx_concat]
          rfl
        · right
          dsimp only
          refine ⟨?_, by trivial, by trivial⟩
          show (commitPlace L _ name (sAfter L s fw fh).pages.length res).pages.length
              = s.pages.length + 1
          rw [(commitPlace_fields L _ name _ res).1, addRectToPage_length]
          show ((sAfter L s fw fh).pages ++ [[]]).length = s.pages.length + 1
          rw [List.length_append]
          rfl

/-- C7 counterexample: the claim says *every* state mutation, including anchor
removal, happens only after a successful commit, so a failed item would leave
the remaining anchors unchanged.  Here the batch's first item (too tall for
any page) fails, yet the anchor at `(page 0, column 0, top 100)` has been
consumed: the anchor list went from one element to none. -/
theorem anchor_consumed_on_failure_cex :
    (processItem sampleLayout ⟨[[]], [], [], 0, 0, 36, [⟨0, 0, 100⟩], false⟩ "x" 100 2000).2 =
      ItemOutcome.failed "File is too large to fit on any page at original size." ∧
    (processItem sampleLayout ⟨[[]], [], [], 0, 0, 36, [⟨0, 0, 100⟩], false⟩ "x" 100 2000).1.anchors
      = [] ∧
    ([(⟨0, 0, 100⟩ : Anchor)] : List Anchor) ≠ [] := by
  have hceil : (⌈(25 : ℚ) / 37⌉ : ℤ) = 1 := by norm_num [Int.ceil_eq_iff]
  refine ⟨?_, ?_, by simp⟩ <;>
    norm_num [processItem, placedOnCursor, stageA, anchorStage, clampTriple, sAfter,
      sweepResult, sweepPages, newPageStage, fitsBlankPage, requiredWidthFor, commitPlace,
      tryPlaceOnPage, firstColumnPlacement, tryColumn, scanColumn, tryOffsets, sortByTop,
      getExistingRects, columnWidth, usableWidth, sampleLayout, List.insertionSort,
      List.orderedInsert, List.range', hceil, max_def, min_def]

/-- Witness for C7 (amended): a concrete failed item leaves pages, owned
names and the cursor untouched. -/
theorem failed_item_state_unchanged_witness :
    (processItem sampleLayout ⟨[[]], [], [], 0, 0, 36, [], false⟩ "w" 100 2000).1.pages = [[]] ∧
    (processItem sampleLayout ⟨[[]], [], [], 0, 0, 36, [], false⟩ "w" 100 2000).1.uploadedNames
      = [] ∧
    (processItem sampleLayout ⟨[[]], [], [], 0, 0, 36, [], false⟩ "w" 100 2000).1.batchPageIndex
      = 0 ∧
    (processItem sampleLayout ⟨[[]], [], [], 0, 0, 36, [], false⟩ "w" 100 2000).1.batchColumnIndex
      = 0 ∧
    (processItem sampleLayout ⟨[[]], [], [], 0, 0, 36, [], false⟩ "w" 100 2000).1.batchMinY
      = 36 := by
  have hceil : (⌈(25 : ℚ) / 37⌉ : ℤ) = 1 := by norm_num [Int.ceil_eq_iff]
  exact failed_item_state_unchanged sampleLayout ⟨[[]], [], [], 0, 0, 36, [], false⟩ "w" 100 2000
    "File is too large to fit on any page at original size."
    (by norm_num [processItem, placedOnCursor, stageA, anchorStage, clampTriple, sAfter,
      sweepResult, sweepPages, newPageStage, fitsBlankPage, requiredWidthFor, commitPlace,
      tryPlaceOnPage, firstColumnPlacement, tryColumn, scanColumn, tryOffsets, sortByTop,
      getExistingRects, columnWidth, usableWidth, sampleLayout, List.insertionSort,
      List.orderedInsert, List.range', hceil, max_def, min_def])

/-- Witness for C8: for a concrete unfit item the failure leaves the single
page untouched and carries the immediate-failure message. -/
theorem new_page_rollback_witness :
    (processItem sampleLayout ⟨[[]], [], [], 0, 0, 36, [], false⟩ "y" 100 2000).1.pages = [[]] ∧
    "File is too large to fit on any page at original size." =
      (if fitsBlankPage sampleLayout 100 2000 = true then "File could not be placed on a new page."
       else "File is too large to fit on any page at original size.") := by
  have hceil : (⌈(25 : ℚ) / 37⌉ : ℤ) = 1 := by norm_num [Int.ceil_eq_iff]
  exact (new_page_rollback sampleLayout ⟨[[]], [], [], 0, 0, 36, [], false⟩ "y" 100 2000).1
    "File is too large to fit on any page at original size."
    (by norm_num [processItem, placedOnCursor, stageA, anchorStage, clampTriple, sAfter,
      sweepResult, sweepPages, newPageStage, fitsBlankPage, requiredWidthFor, commitPlace,
      tryPlaceOnPage, firstColumnPlacement, tryColumn, scanColumn, tryOffsets, sortByTop,
      getExistingRects, columnWidth, usableWidth, sampleLayout, List.insertionSort,
      List.orderedInsert, List.range', hceil, max_def, min_def])

/-- Witness for C10: a stored cursor on page 5 of a one-page document is
clamped and the item is processed as from the last page. -/
theorem cursor_clamp_safe_witness :
    (processItem sampleLayout ⟨[[]], [], [], 5, 0, 36, [], false⟩ "a" 100 100).2 =
      (processItem sampleLayout
        (clampState sampleLayout ⟨[[]], [], [], 5, 0, 36, [], false⟩) "a" 100 100).2 :=
  (cursor_clamp_safe sampleLayout ⟨[[]], [], [], 5, 0, 36, [], false⟩ "a" 100 100
    (by simp) (by simp)).2.2.2.1

theorem newPageStage_success_spec (L : Layout) (s : BatchState) (name : String)
    (fw fh : ℚ) (h : (newPageStage L s name fw fh).2 = ItemOutcome.success) :
    ∃ res, tryPlaceOnPage L s.ownedStale [] fw fh 0 L.topMargin none = some res ∧
      (newPageStage L s name fw fh).1 =
        commitPlace L { s with pages := s.pages ++ [[]] } name s.pages.length res := by
  unfold newPageStage at h ⊢
  dsimp only at h ⊢
  rcases hfits : fitsBlankPage L fw fh with _ | _
  · simp only [hfits, Bool.false_eq_true, if_false] at h
    exact absurd h (by simp)
  · simp only [hfits, if_true] at h ⊢
    rcases hres : tryPlaceOnPage L s.ownedStale [] fw fh 0 L.topMargin none with _ | res
    · rw [hres] at h
      exact absurd h (by simp)
    · exact ⟨res, rfl, rfl⟩

theorem commit_policy (L : Layout) (t : BatchState) (name : String) (p : ℕ)
    (res : PlaceResult) :
    (commitPlace L t name p res).pages = addRectToPage t.pages p ⟨res.rect, some name⟩ ∧
    ((checkColumnFullness L t.ownedStale
          ((addRectToPage t.pages p ⟨res.rect, some name⟩).getD p []) res.columnIndex = true ∧
        res.columnIndex < L.columnCount - 1 ∧
        cursorTripleOf (commitPlace L t name p res) = (p, res.columnIndex + 1, L.topMargin)) ∨
      (¬(checkColumnFullness L t.ownedStale
          ((addRectToPage t.pages p ⟨res.rect, some name⟩).getD p []) res.columnIndex = true ∧
        res.columnIndex < L.columnCount - 1) ∧
        cursorTripleOf (commitPlace L t name p res) = (p, res.columnIndex, res.bottomY))) := by
  refine ⟨(commitPlace_fields L t name p res).1, ?_⟩
  rw [commitPlace_cursor]
  by_cases hc : checkColumnFullness L t.ownedStale
      ((addRectToPage t.pages p ⟨res.rect, some name⟩).getD p []) res.columnIndex = true ∧
      res.columnIndex < L.columnCount - 1
  · exact Or.inl ⟨hc.1, hc.2, if_pos hc⟩
  · exact Or.inr ⟨hc, if_neg hc⟩

/-- C6: after any successful placement the cursor follows the column-fullness
policy, computed on the page as it stands after the placement and counting
only engine-owned rectangles: if the placed column's remaining space is below
the 50-unit threshold and a later column exists, the cursor advances to
`(same page, column+1, top margin)`; otherwise it stays at
`(page, column, justPlacedBottomY)`. -/
theorem column_fullness_policy (L : Layout) (s : BatchState) (name : String) (fw fh : ℚ)
    (hs : (processItem L s name fw fh).2 = ItemOutcome.success) :
    ∃ (p : ℕ) (res : PlaceResult) (base : List (List PRect)),
      (processItem L s name fw fh).1.pages = addRectToPage base p ⟨res.rect, some name⟩ ∧
      ((checkColumnFullness L s.ownedStale
            ((addRectToPage base p ⟨res.rect, some name⟩).getD p []) res.columnIndex = true ∧
          res.columnIndex < L.columnCount - 1 ∧
          cursorTripleOf (processItem L s name fw fh).1 =
            (p, res.columnIndex + 1, L.topMargin)) ∨
       (¬(checkColumnFullness L s.ownedStale
            ((addRectToPage base p ⟨res.rect, some name⟩).getD p []) res.columnIndex = true ∧
          res.columnIndex < L.columnCount - 1) ∧
          cursorTripleOf (processItem L s name fw fh).1 =
            (p, res.columnIndex, res.bottomY))) := by
  rcases processItem_shape L s name fw fh with ⟨p, res, _, heq⟩ | ⟨_, i, res, _, heq⟩ |
    ⟨_, _, heq⟩
  · refine ⟨p, res, (sAfter L s fw fh).pages, ?_⟩
    rw [heq]
    exact commit_policy L (sAfter L s fw fh) name p res
  · refine ⟨i, res, (sAfter L s fw fh).pages, ?_⟩
    rw [heq]
    exact commit_policy L (sAfter L s fw fh) name i res
  · rw [heq] at hs ⊢
    obtain ⟨res, _, heq2⟩ := newPageStage_success_spec L (sAfter L s fw fh) name fw fh hs
    refine ⟨(sAfter L s fw fh).pages.length, res, (sAfter L s fw fh).pages ++ [[]], ?_⟩
    rw [heq2]
    exact commit_policy L { sAfter L s fw fh with pages := (sAfter L s fw fh).pages ++ [[]] }
      name (sAfter L s fw fh).pages.length res

/-- Witness for C6: a first item placed on an empty page triggers the policy
(there the column is not yet full, so the cursor stays at the placed bottom). -/
theorem column_fullness_policy_witness :
    ∃ (p : ℕ) (res : PlaceResult) (base : List (List PRect)),
      (processItem sampleLayout ⟨[[]], [], [], 0, 0, 36, [], false⟩ "a" 100 100).1.pages =
        addRectToPage base p ⟨res.rect, some "a"⟩ ∧
      ((checkColumnFullness sampleLayout []
            ((addRectToPage base p ⟨res.rect, some "a"⟩).getD p []) res.columnIndex = true ∧
          res.columnIndex < sampleLayout.columnCount - 1 ∧
          cursorTripleOf (processItem sampleLayout ⟨[[]], [], [], 0, 0, 36, [], false⟩
              "a" 100 100).1 = (p, res.columnIndex + 1, sampleLayout.topMargin)) ∨
       (¬(checkColumnFullness sampleLayout []
            ((addRectToPage base p ⟨res.rect, some "a"⟩).getD p []) res.columnIndex = true ∧
          res.columnIndex < sampleLayout.columnCount - 1) ∧
          cursorTripleOf (processItem sampleLayout ⟨[[]], [], [], 0, 0, 36, [], false⟩
              "a" 100 100).1 = (p, res.columnIndex, res.bottomY))) := by
  have hceil : (⌈(25 : ℚ) / 37⌉ : ℤ) = 1 := by norm_num [Int.ceil_eq_iff]
  exact column_fullness_policy sampleLayout ⟨[[]], [], [], 0, 0, 36, [], false⟩ "a" 100 100
    (by norm_num [processItem, placedOnCursor, stageA, anchorStage, clampTriple, sAfter,
      sweepResult, sweepPages, newPageStage, fitsBlankPage, requiredWidthFor, commitPlace,
      checkColumnFullness, addRectToPage, tryPlaceOnPage, firstColumnPlacement, tryColumn,
      scanColumn, tryOffsets, sortByTop, getExistingRects, columnWidth, usableWidth,
      sampleLayout, List.insertionSort, List.orderedInsert, List.range', hceil, max_def,
      min_def])

theorem rectsOverlap_comm (a b : Rect) : rectsOverlap a b = rectsOverlap b a := by
  simp [rectsOverlap, ge_iff_le, Bool.or_comm, Bool.or_left_comm, Bool.or_assoc]

theorem NoOverlapPage_append (pg : List PRect) (n : PRect) (h : NoOverlapPage pg)
    (hn : ∀ r ∈ pg, rectsOverlap n.bounds r.bounds = false) :
    NoOverlapPage (pg ++ [n]) := by
  unfold NoOverlapPage at *
  rw [List.pairwise_append]
  refine ⟨h, List.pairwise_singleton _ _, ?_⟩
  intro a ha b hb
  simp only [List.mem_singleton] at hb
  subst hb
  rw [rectsOverlap_comm]
  exact hn a ha

theorem getD_concat {α : Type} (l : List α) (x d : α) : (l ++ [x]).getD l.length d = x := by
  induction l with
  | nil => rfl
  | cons a l ih => simp only [List.cons_append, List.length_cons, List.getD_cons_succ, ih]

theorem NoOverlapDoc_addRect (pages : List (List PRect)) (p : ℕ) (n : PRect)
    (h : NoOverlapDoc pages)
    (hn : ∀ r ∈ pages.getD p [], rectsOverlap n.bounds r.bounds = false) :
    NoOverlapDoc (addRectToPage pages p n) := by
  intro pg hpg
  unfold addRectToPage at hpg
  rcases List.mem_or_eq_of_mem_set hpg with hmem | heq
  · exact h pg hmem
  · subst heq
    by_cases hp : p < pages.length
    · refine NoOverlapPage_append _ _ (h _ ?_) hn
      rw [List.getD_eq_getElem?_getD]
      rw [List.getElem?_eq_getElem hp]
      simp only [Option.getD_some]
      exact List.getElem_mem _
    · have : pages.getD p [] = [] := by
        rw [List.getD_eq_getElem?_getD, List.getElem?_eq_none (by omega)]
        rfl
      rw [this]
      simp [NoOverlapPage]

theorem NoOverlapDoc_append_empty (pages : List (List PRect)) (h : NoOverlapDoc pages) :
    NoOverlapDoc (pages ++ [[]]) := by
  intro pg hpg
  rcases List.mem_append.mp hpg with hmem | hmem
  · exact h pg hmem
  · simp only [List.mem_singleton] at hmem
    subst hmem
    exact List.Pairwise.nil

theorem processItem_no_overlap (L : Layout) (s : BatchState) (name : String) (fw fh : ℚ)
    (h : NoOverlapDoc s.pages) : NoOverlapDoc (processItem L s name fw fh).1.pages := by
  rcases processItem_shape L s name fw fh with ⟨p, res, hpc, heq⟩ | ⟨_, i, res, hsw, heq⟩ |
    ⟨_, _, heq⟩
  · rw [heq]
    show NoOverlapDoc (commitPlace L (sAfter L s fw fh) name p res).pages
    rw [(commitPlace_fields L (sAfter L s fw fh) name p res).1]
    have hev : ∃ sc mY ocol, tryPlaceOnPage L s.ownedStale (s.pages.getD p []) fw fh
        sc mY ocol = some res := by
      rcases placedOnCursor_some_spec L s fw fh p res hpc with hA | ⟨_, hp, _, htry⟩
      · rcases stageA_spec L s fw fh with ⟨_, hA2⟩ | ⟨anchor, rest, _, _, _, _, hcase⟩
        · rw [hA2] at hA
          exact absurd hA (by simp)
        · rcases hcase with ⟨res2, hps, _, _, hev2⟩ | ⟨hnone, _, _, _⟩
          · rw [hps] at hA
            cases hA
            exact hev2
          · rw [hnone] at hA
            exact absurd hA (by simp)
      · subst hp
        exact ⟨_, _, _, htry⟩
    obtain ⟨sc, mY, ocol, htry⟩ := hev
    exact NoOverlapDoc_addRect _ _ _ h
      (tryPlaceOnPage_some_spec L _ _ fw fh sc mY ocol res htry).1
  · rw [heq]
    rw [(commitPlace_fields L (sAfter L s fw fh) name i res).1]
    unfold sweepResult at hsw
    obtain ⟨_, htry⟩ := sweepPages_some L s.ownedStale s.pages fw fh _ i res hsw
    exact NoOverlapDoc_addRect _ _ _ h
      (tryPlaceOnPage_some_spec L _ _ fw fh 0 L.topMargin none res htry).1
  · rw [heq]
    unfold newPageStage
    dsimp only
    rcases hfits : fitsBlankPage L fw fh with _ | _
    · simp only [hfits, Bool.false_eq_true, if_false]
      exact h
    · simp only [hfits, if_true]
      rcases hres : tryPlaceOnPage L (sAfter L s fw fh).ownedStale [] fw fh 0 L.topMargin none
        with _ | res
      · dsimp only
        show NoOverlapDoc (((sAfter L s fw fh).pages ++ [[]]).eraseIdx
          (sAfter L s fw fh).pages.length)
        rw [eraseIdx_concat]
        exact h
      · dsimp only
        rw [(commitPlace_fields L _ name _ res).1]
        refine NoOverlapDoc_addRect _ _ _ (NoOverlapDoc_append_empty _ h) ?_
        intro r hr
        rw [getD_concat] at hr
        exact absurd hr (List.not_mem_nil r)

/-- C1: a candidate rectangle is accepted by `tryPlaceOnPage` only if it
overlaps no existing rectangle anywhere on the page (not just the target
column), and consequently, starting from a document whose rectangles are
pairwise non-overlapping (pre-existing content included), after any sequence
of placements the document's rectangles are still pairwise non-overlapping. -/
theorem no_overlap_invariant :
    (∀ (L : Layout) (owned : List String) (page : List PRect) (fw fh minY : ℚ) (sc : ℕ)
        (oc : Option ℕ) (res : PlaceResult),
        tryPlaceOnPage L owned page fw fh sc minY oc = some res →
        ∀ r ∈ page, rectsOverlap res.rect r.bounds = false) ∧
    (∀ (L : Layout) (s : BatchState) (items : List BatchItem),
        NoOverlapDoc s.pages → NoOverlapDoc (runItems L s items).1.pages) := by
  constructor
  · intro L owned page fw fh minY sc oc res h
    exact (tryPlaceOnPage_some_spec L owned page fw fh sc minY oc res h).1
  · intro L s items
    induction items generalizing s with
    | nil => exact fun h => h
    | cons it rest ih =>
      intro h
      unfold runItems
      dsimp only
      exact ih _ (processItem_no_overlap L s it.name it.width it.height h)

/-- Witness for C1: two items run on an initially empty one-page document
leave a document with no overlapping pair. -/
theorem no_overlap_invariant_witness :
    NoOverlapDoc ((runItems sampleLayout ⟨[[]], [], [], 0, 0, 36, [], false⟩
      [⟨"a", 100, 100⟩, ⟨"b", 100, 100⟩]).1.pages) :=
  no_overlap_invariant.2 sampleLayout ⟨[[]], [], [], 0, 0, 36, [], false⟩
    [⟨"a", 100, 100⟩, ⟨"b", 100, 100⟩] (by simp [NoOverlapDoc, NoOverlapPage])

theorem rectsOverlap_false_of (r1 r2 : Rect)
    (h : r1.bottom ≤ r2.top ∨ r2.bottom ≤ r1.top ∨ r1.right ≤ r2.left ∨ r2.right ≤ r1.left) :
    rectsOverlap r1 r2 = false := by
  simp only [rectsOverlap, ge_iff_le, Bool.not_eq_false', Bool.or_eq_true, decide_eq_true_eq]
  tauto

theorem le_ceil_mul (cw fw : ℚ) (hcw : 0 < cw) : fw ≤ (⌈fw / cw⌉ : ℚ) * cw := by
  have h1 : fw / cw ≤ (⌈fw / cw⌉ : ℚ) := Int.le_ceil _
  calc fw = (fw / cw) * cw := by field_simp
    _ ≤ (⌈fw / cw⌉ : ℚ) * cw := mul_le_mul_of_nonneg_right h1 hcw.le

theorem tryOffsets_offset0 (all : List ERect) (ub nt lb fw fh cs : ℚ) (col : ℕ)
    (hgap : lb + fh ≤ nt)
    (hfree : ∀ e ∈ all, rectsOverlap ⟨lb, cs, lb + fh, cs + fw⟩ e.bounds = false)
    (res : PlaceResult)
    (h : tryOffsets all ub nt lb fw fh cs col [0, 5] = some res) :
    res.rect.top = lb := by
  have hz : lb + (0 : ℚ) = lb := add_zero lb
  unfold tryOffsets at h
  dsimp only at h
  split at h
  · rename_i hguard
    have hub : ub < lb + fh := by
      rcases hguard with h1 | h1
      · rw [hz] at h1
        linarith
      · rw [hz] at h1
        linarith
    unfold tryOffsets at h
    dsimp only at h
    split at h
    · simp [tryOffsets] at h
    · rename_i hguard2
      push_neg at hguard2
      exfalso
      have := hguard2.2
      linarith
  · split at h
    · cases h
      exact hz
    · rename_i hall
      exfalso
      apply hall
      rw [List.all_eq_true]
      intro e he
      have := hfree e he
      rw [show lb + (0 : ℚ) + fh = lb + fh from by ring, hz]
      simp [this]

theorem scanColumn_top_src (all : List ERect) (L : Layout) (fw fh cs sy : ℚ) (col : ℕ) :
    ∀ (rem : List ERect) (lb : ℚ),
      List.Sorted topLE rem →
      (∀ e ∈ rem, e ∈ all) →
      (∀ e ∈ all, (cs + fw ≤ e.bounds.left ∨ e.bounds.right ≤ cs) ∨
        e.bounds.bottom ≤ lb ∨ e ∈ rem) →
      (lb = sy ∨ ∃ e ∈ all, lb = e.bounds.bottom) →
      ∀ res, scanColumn all L fw fh cs col sy rem lb = some res →
        res.rect.top = sy ∨ ∃ e ∈ all, res.rect.top = e.bounds.bottom := by
  intro rem
  induction rem with
  | nil =>
    intro lb _ _ hinv hlb res h
    unfold scanColumn at h
    dsimp only at h
    split at h
    · rename_i hcond
      have hfree : ∀ e ∈ all,
          rectsOverlap ⟨lb, cs, lb + fh, cs + fw⟩ e.bounds = false := by
        intro e he
        rcases hinv e he with hsep | hbot | hmem
        · exact rectsOverlap_false_of _ _ (by dsimp only; tauto)
        · exact rectsOverlap_false_of _ _ (by dsimp only; tauto)
        · exact absurd hmem (List.not_mem_nil e)
      have htop := tryOffsets_offset0 all _ _ lb fw fh cs col (by linarith [hcond.2.2]) hfree res h
      rw [htop]
      exact hlb
    · exact absurd h (by simp)
  | cons r rest ih =>
    intro lb hsort hsub hinv hlb res h
    have hsubr : ∀ e ∈ rest, e ∈ all := fun e he => hsub e (List.mem_cons_of_mem _ he)
    have hrall : r ∈ all := hsub r (List.mem_cons_self _ _)
    unfold scanColumn at h
    dsimp only at h
    split at h
    · rename_i hskip
      refine ih (max lb r.bounds.bottom) hsort.of_cons hsubr ?_ ?_ res h
      · intro e he
        rcases hinv e he with hsep | hbot | hmem
        · exact Or.inl hsep
        · exact Or.inr (Or.inl (le_trans hbot (le_max_left _ _)))
        · rcases List.mem_cons.mp hmem with heq | hmem2
          · subst heq
            exact Or.inr (Or.inl (le_max_right _ _))
          · exact Or.inr (Or.inr hmem2)
      · rcases max_choice lb r.bounds.bottom with hm | hm
        · rw [hm]
          exact hlb
        · rw [hm]
          exact Or.inr ⟨r, hrall, rfl⟩
    · rename_i hskip
      push_neg at hskip
      split at h
      · rename_i val heq
        split at heq
        · rename_i hcond
          have hfree : ∀ e ∈ all,
              rectsOverlap ⟨lb, cs, lb + fh, cs + fw⟩ e.bounds = false := by
            intro e he
            rcases hinv e he with hsep | hbot | hmem
            · exact rectsOverlap_false_of _ _ (by dsimp only; tauto)
            · exact rectsOverlap_false_of _ _ (by dsimp only; tauto)
            · have hetop : r.bounds.top ≤ e.bounds.top := by
                rcases List.mem_cons.mp hmem with heq2 | hmem2
                · subst heq2
                  exact le_refl _
                · exact List.rel_of_sorted_cons hsort e hmem2
              refine rectsOverlap_false_of _ _ (Or.inl ?_)
              dsimp only
              have := hcond.2.2
              linarith
          have htop := tryOffsets_offset0 all _ _ lb fw fh cs col
            (by linarith [hcond.2.2]) hfree val heq
          cases h
          rw [htop]
          exact hlb
        · exact absurd heq (by simp)
      · by_cases hgt : r.bounds.bottom > lb
        · rw [if_pos hgt] at h
          refine ih r.bounds.bottom hsort.of_cons hsubr ?_ (Or.inr ⟨r, hrall, rfl⟩) res h
          intro e he
          rcases hinv e he with hsep | hbot | hmem
          · exact Or.inl hsep
          · exact Or.inr (Or.inl (le_trans hbot hgt.le))
          · rcases List.mem_cons.mp hmem with heq2 | hmem2
            · subst heq2
              exact Or.inr (Or.inl (le_refl _))
            · exact Or.inr (Or.inr hmem2)
        · rw [if_neg hgt] at h
          push_neg at hgt
          refine ih lb hsort.of_cons hsubr ?_ hlb res h
          intro e he
          rcases hinv e he with hsep | hbot | hmem
          · exact Or.inl hsep
          · exact Or.inr (Or.inl hbot)
          · rcases List.mem_cons.mp hmem with heq2 | hmem2
            · subst heq2
              exact Or.inr (Or.inl hgt)
            · exact Or.inr (Or.inr hmem2)

theorem tryColumn_top_src (L : Layout) (ex : List ERect) (fw fh : ℚ) (sc : ℕ) (minY : ℚ)
    (c : ℕ) (res : PlaceResult) (hcw : 0 < columnWidth L)
    (h : tryColumn L ex fw fh sc minY c = some res) :
    res.rect.top = (if c = sc then max L.topMargin minY else L.topMargin) ∨
    ∃ e ∈ ex, res.rect.top = e.bounds.bottom := by
  unfold tryColumn at h
  split at h
  swap
  · exact absurd h (by simp)
  dsimp only at h
  split at h
  · exact absurd h (by simp)
  rename_i hc hcEnd
  refine scanColumn_top_src ex L fw fh _ _ c _ _
    (List.sorted_insertionSort topLE _) ?_ ?_ (Or.inl rfl) res h
  · intro e he
    have := (List.mem_insertionSort topLE).mp he
    exact (List.mem_filter.mp this).1
  · intro e he
    set cstart := L.leftMargin + (c : ℚ) * (columnWidth L + L.columnGutter) with hcs
    by_cases hf : (decide (e.bounds.left < cstart + (⌈fw / columnWidth L⌉ : ℚ) * columnWidth L) &&
        decide (e.bounds.right > cstart)) = true
    · refine Or.inr (Or.inr ?_)
      rw [List.mem_insertionSort topLE]
      exact List.mem_filter.mpr ⟨he, hf⟩
    · refine Or.inl ?_
      simp only [Bool.and_eq_true, decide_eq_true_eq, not_and_or, not_lt] at hf
      rcases hf with h1 | h1
      · left
        have hfw : fw ≤ (⌈fw / columnWidth L⌉ : ℚ) * columnWidth L := le_ceil_mul _ _ hcw
        linarith
      · right
        linarith

/-- C5: the gap probe is effectively a single iteration.  Although the
candidate-offset loop of lines 1288-1299 nominally probes tops in steps of 5
units, any rectangle `tryPlaceOnPage` returns has its top exactly at
`lastBottom`: the search start of its column (the clamped cursor Y for the
start column, the top margin for every later column) or the bottom edge of an
existing rectangle of the page. -/
theorem gap_probe_single_iteration (L : Layout) (owned : List String) (page : List PRect)
    (fw fh minY : ℚ) (sc : ℕ) (oc : Option ℕ) (res : PlaceResult)
    (hcw : 0 < columnWidth L)
    (h : tryPlaceOnPage L owned page fw fh sc minY oc = some res) :
    res.rect.top = (if res.columnIndex = sc then max L.topMargin minY else L.topMargin) ∨
    ∃ r ∈ page, res.rect.top = r.bounds.bottom := by
  unfold tryPlaceOnPage at h
  dsimp only at h
  obtain ⟨c, _, heq⟩ := firstColumnPlacement_some L _ fw fh sc minY _ res h
  have hcol : res.columnIndex = c := (tryColumn_some_spec L _ fw fh sc minY c res heq).1
  rcases tryColumn_top_src L (getExistingRects owned page) fw fh sc minY c res hcw heq with
    htop | ⟨e, he, htop⟩
  · left
    rw [hcol]
    exact htop
  · right
    obtain ⟨r, hr, hb⟩ := List.mem_map.mp he
    refine ⟨r, hr, ?_⟩
    rw [htop, ← hb]

/-- Witness for C5: in the stacking scenario the second item's top is exactly
the first rectangle's bottom edge (also the cursor Y), not a 5-unit offset. -/
theorem gap_probe_single_iteration_witness :
    (⟨⟨136, 36, 236, 136⟩, 0, 236⟩ : PlaceResult).rect.top =
      (if (⟨⟨136, 36, 236, 136⟩, 0, 236⟩ : PlaceResult).columnIndex = 0 then
        max sampleLayout.topMargin 136 else sampleLayout.topMargin) ∨
    ∃ r ∈ [(⟨⟨36, 36, 136, 136⟩, some "a"⟩ : PRect)],
      (⟨⟨136, 36, 236, 136⟩, 0, 236⟩ : PlaceResult).rect.top = r.bounds.bottom := by
  have hceil : (⌈(25 : ℚ) / 37⌉ : ℤ) = 1 := by norm_num [Int.ceil_eq_iff]
  exact gap_probe_single_iteration sampleLayout [] [⟨⟨36, 36, 136, 136⟩, some "a"⟩]
    100 100 136 0 none ⟨⟨136, 36, 236, 136⟩, 0, 236⟩
    (by norm_num [columnWidth, usableWidth, sampleLayout])
    (by norm_num [tryPlaceOnPage, firstColumnPlacement, tryColumn, scanColumn, tryOffsets,
      sortByTop, getExistingRects, columnWidth, usableWidth, sampleLayout, rectsOverlap,
      topLE, List.insertionSort, List.orderedInsert, List.range', hceil, max_def])

theorem lexLE_refl (a : ℕ × ℕ) : lexLE a a := Or.inr ⟨rfl, le_refl _⟩

theorem lexLE_trans {a b c : ℕ × ℕ} (h1 : lexLE a b) (h2 : lexLE b c) : lexLE a c := by
  rcases h1 with h1 | ⟨h1, h1c⟩ <;> rcases h2 with h2 | ⟨h2, h2c⟩
  · exact Or.inl (lt_trans h1 h2)
  · exact Or.inl (h2 ▸ h1)
  · exact Or.inl (h1 ▸ h2)
  · exact Or.inr ⟨h1.trans h2, h1c.trans h2c⟩

theorem removeOverlappingAnchors_nil (p c : ℕ) (top bottom : ℚ) :
    removeOverlappingAnchors [] p c top bottom = [] := rfl

theorem stageA_used_false_anchors_nil (L : Layout) (s : BatchState) (fw fh : ℚ)
    (h : (stageA L s fw fh).anchorUsed = false) : (stageA L s fw fh).anchors = [] := by
  rcases stageA_spec L s fw fh with ⟨hor, hA⟩ | ⟨anchor, rest, _, _, _, hused, _⟩
  · rw [hA] at h ⊢
    rcases hor with hu | hn
    · rw [hu] at h
      exact absurd h (by simp)
    · exact hn
  · rw [hused] at h
    exact absurd h (by simp)

theorem processItem_mono (L : Layout) (s : BatchState) (name : String) (fw fh : ℚ)
    (h : BatchInv s) :
    lexLE (cursorOf s) (cursorOf (processItem L s name fw fh).1) ∧
    BatchInv (processItem L s name fw fh).1 := by
  obtain ⟨hne, hlt, hanch⟩ := h
  have hlen : 0 < s.pages.length := List.length_pos.mpr hne
  have hclamp : clampTriple L s = (s.batchPageIndex, s.batchColumnIndex, s.batchMinY) := by
    unfold clampTriple
    rw [if_neg (by omega)]
  have hvac : ∀ s' : BatchState, s'.anchorUsed = (stageA L s fw fh).anchorUsed →
      (s'.anchors = (stageA L s fw fh).anchors ∨
        ∃ pp ccc tt bb, s'.anchors =
          removeOverlappingAnchors (stageA L s fw fh).anchors pp ccc tt bb) →
      (s'.anchorUsed = false → ∀ a ∈ s'.anchors.head?,
        lexLE (cursorOf s') (min a.pageIndex (s'.pages.length - 1), a.columnIndex)) := by
    intro s' hau han hfalse a ha
    rw [hau] at hfalse
    have hnil := stageA_used_false_anchors_nil L s fw fh hfalse
    rcases han with han | ⟨pp, ccc, tt, bb, han⟩
    · rw [han, hnil] at ha
      simp at ha
    · rw [han, hnil, removeOverlappingAnchors_nil] at ha
      simp at ha
  rcases processItem_shape L s name fw fh with ⟨p, res, hpc, heq⟩ | ⟨hpcn, i, res, hsw, heq⟩ |
    ⟨hpcn, hswn, heq⟩
  · -- success on the anchor branch or the working cursor's page
    have hC := commitPlace_fields L (sAfter L s fw fh) name p res
    have hplex : lexLE (cursorOf s) (p, res.columnIndex) ∧ p < s.pages.length := by
      rcases placedOnCursor_some_spec L s fw fh p res hpc with hA | ⟨hAn, hp, hplt, htry⟩
      · rcases stageA_spec L s fw fh with ⟨_, hA2⟩ | ⟨anchor, rest, hu, han, _, _, hcase⟩
        · rw [hA2] at hA
          exact absurd hA (by simp)
        · rcases hcase with ⟨res2, hps, _, hcolge, _⟩ | ⟨hnone, _, _, _⟩
          · rw [hps] at hA
            cases hA
            have hlex := hanch hu
            rw [han] at hlex
            have hlex2 := hlex anchor (by simp)
            constructor
            · exact lexLE_trans hlex2 (Or.inr ⟨rfl, hcolge⟩)
            · have : min anchor.pageIndex (s.pages.length - 1) ≤ s.pages.length - 1 :=
                min_le_right _ _
              omega
          · rw [hnone] at hA
            exact absurd hA (by simp)
      · rcases stageA_spec L s fw fh with ⟨_, hA2⟩ | ⟨anchor, rest, hu, han, _, _, hcase⟩
        · have hcc : (stageA L s fw fh).cc = s.batchColumnIndex := by
            rw [hA2, hclamp]
          have hcp : (stageA L s fw fh).cp = s.batchPageIndex := by
            rw [hA2, hclamp]
          have hcolge : (stageA L s fw fh).cc ≤ res.columnIndex :=
            (tryPlaceOnPage_some_spec L _ _ fw fh _ _ none res htry).2.2.2.1 rfl
          rw [hcc] at hcolge
          rw [hcp] at hp
          subst hp
          exact ⟨Or.inr ⟨rfl, hcolge⟩, hplt⟩
        · rcases hcase with ⟨res2, hps, _, _, _⟩ | ⟨hnone, hcp, _, _⟩
          · rw [hps] at hAn
            exact absurd hAn (by simp)
          · rw [hcp] at hp
            have hlex := hanch hu
            rw [han] at hlex
            have hlex2 := hlex anchor (by simp)
            have hble : s.batchPageIndex ≤ min anchor.pageIndex (s.pages.length - 1) := by
              rcases hlex2 with h1 | ⟨h1, _⟩
              · exact le_of_lt h1
              · exact le_of_eq h1
            subst hp
            have hgoal : s.batchPageIndex < min anchor.pageIndex (s.pages.length - 1) + 1 := by
              omega
            exact ⟨Or.inl hgoal, hplt⟩
    rw [heq]
    have hplen : (commitPlace L (sAfter L s fw fh) name p res).pages.length
        = s.pages.length := by
      rw [hC.1]
      exact addRectToPage_length _ _ _
    refine ⟨?_, ?_, ?_, ?_⟩
    · show lexLE (cursorOf s) ((commitPlace L (sAfter L s fw fh) name p res).batchPageIndex,
        (commitPlace L (sAfter L s fw fh) name p res).batchColumnIndex)
      rw [hC.2.2.2.2.2.1]
      exact lexLE_trans hplex.1 (Or.inr ⟨rfl, hC.2.2.2.2.2.2⟩)
    · show (commitPlace L (sAfter L s fw fh) name p res).pages ≠ []
      have : (commitPlace L (sAfter L s fw fh) name p res).pages.length ≠ 0 := by omega
      exact fun hcon => this (by rw [hcon]; rfl)
    · show (commitPlace L (sAfter L s fw fh) name p res).batchPageIndex
        < (commitPlace L (sAfter L s fw fh) name p res).pages.length
      rw [hC.2.2.2.2.2.1, hplen]
      exact hplex.2
    · exact hvac _ hC.2.2.2.2.1 (Or.inr ⟨p, res.columnIndex, res.bottomY - fh, res.bottomY,
        congrArg (fun l => removeOverlappingAnchors l p res.columnIndex
          (res.bottomY - fh) res.bottomY) (hC.2.2.2.1.trans rfl)⟩)
  · -- success on the page sweep
    have hC := commitPlace_fields L (sAfter L s fw fh) name i res
    unfold sweepResult at hsw
    obtain ⟨hmem, _⟩ := sweepPages_some L s.ownedStale s.pages fw fh _ i res hsw
    have hi := List.mem_range'_1.mp hmem
    have hi2 : s.batchPageIndex < i ∧ i < s.pages.length := by
      obtain ⟨h1, h2⟩ := hi
      omega
    rw [heq]
    have hplen : (commitPlace L (sAfter L s fw fh) name i res).pages.length
        = s.pages.length := by
      rw [hC.1]
      exact addRectToPage_length _ _ _
    refine ⟨?_, ?_, ?_, ?_⟩
    · show lexLE (cursorOf s) ((commitPlace L (sAfter L s fw fh) name i res).batchPageIndex,
        (commitPlace L (sAfter L s fw fh) name i res).batchColumnIndex)
      rw [hC.2.2.2.2.2.1]
      exact Or.inl hi2.1
    · have : (commitPlace L (sAfter L s fw fh) name i res).pages.length ≠ 0 := by omega
      exact fun hcon => this (by rw [hcon]; rfl)
    · show (commitPlace L (sAfter L s fw fh) name i res).batchPageIndex
        < (commitPlace L (sAfter L s fw fh) name i res).pages.length
      rw [hC.2.2.2.2.2.1, hplen]
      exact hi2.2
    · exact hvac _ hC.2.2.2.2.1 (Or.inl hC.2.2.2.1)
  · -- new-page stage
    rw [heq]
    rcases hout : (newPageStage L (sAfter L s fw fh) name fw fh).2 with _ | msg
    · -- success: a fresh page was appended and committed
      obtain ⟨res, _, heq2⟩ := newPageStage_success_spec L (sAfter L s fw fh) name fw fh hout
      have hC := commitPlace_fields L { sAfter L s fw fh with
        pages := (sAfter L s fw fh).pages ++ [[]] } name (sAfter L s fw fh).pages.length res
      rw [heq2]
      have hplen : (commitPlace L { sAfter L s fw fh with
          pages := (sAfter L s fw fh).pages ++ [[]] } name
          (sAfter L s fw fh).pages.length res).pages.length = s.pages.length + 1 := by
        rw [hC.1, addRectToPage_length]
        show ((sAfter L s fw fh).pages ++ [[]]).length = _
        rw [List.length_append]
        rfl
      refine ⟨?_, ?_, ?_, ?_⟩
      · show lexLE (cursorOf s) ((commitPlace L _ name _ res).batchPageIndex,
          (commitPlace L _ name _ res).batchColumnIndex)
        rw [hC.2.2.2.2.2.1]
        exact Or.inl hlt
      · have : (commitPlace L { sAfter L s fw fh with
            pages := (sAfter L s fw fh).pages ++ [[]] } name
            (sAfter L s fw fh).pages.length res).pages.length ≠ 0 := by omega
        exact fun hcon => this (by rw [hcon]; rfl)
      · show (commitPlace L _ name _ res).batchPageIndex < (commitPlace L _ name _ res).pages.length
        rw [hC.2.2.2.2.2.1, hplen]
        show s.pages.length < s.pages.length + 1
        omega
      · exact hvac _ hC.2.2.2.2.1 (Or.inl hC.2.2.2.1)
    · -- failure: everything relevant is unchanged
      obtain ⟨h1, _, h3, h4, h5, _, _⟩ :=
        newPageStage_failed_spec L (sAfter L s fw fh) name fw fh msg hout
      refine ⟨?_, ?_, ?_, ?_⟩
      · show lexLE (cursorOf s) ((newPageStage L (sAfter L s fw fh) name fw fh).1.batchPageIndex,
          (newPageStage L (sAfter L s fw fh) name fw fh).1.batchColumnIndex)
        rw [h4, h5]
        exact lexLE_refl _
      · rw [h1]
        exact hne
      · rw [h4, h1]
        exact hlt
      · -- anchor clause via hvac: anchors and flag are those of the anchor stage
        refine hvac _ ?_ (Or.inl h3)
        have h8 : (newPageStage L (sAfter L s fw fh) name fw fh).1.anchorUsed
            = (sAfter L s fw fh).anchorUsed := by
          unfold newPageStage
          dsimp only
          split
          · split
            · rename_i res hres
              exact (commitPlace_fields L _ name _ res).2.2.2.2.1
            · rfl
          · rfl
        exact h8

/-- C2: forward-only.  First conjunct: from any state satisfying the batch
invariant — which holds from batch start onward, the anchor override of the
batch-start path included — the sequence of batch-cursor
`(pageIndex, columnIndex)` values visited while processing the items is
non-decreasing in lexicographic order.  Second conjunct: batch initialisation
(including the single batch-start anchor jump) establishes that invariant
whenever the document has a page and the stored cursor is in range. -/
theorem forward_only_cursor :
    (∀ (L : Layout) (s : BatchState) (items : List BatchItem),
      BatchInv s → List.Chain' lexLE (cursorTrace L s items)) ∧
    (∀ (L : Layout) (pages : List (List PRect)) (stored : DocState) (anchors0 : List Anchor),
      pages ≠ [] →
      (∀ cur, stored.activeColumn = some cur → cur.pageIndex < pages.length) →
      BatchInv (initialBatchState L pages stored anchors0)) := by
  constructor
  · intro L s items h
    induction items generalizing s with
    | nil => simp [cursorTrace]
    | cons it rest ih =>
      have hm := processItem_mono L s it.name it.width it.height h
      cases rest with
      | nil =>
        simp only [cursorTrace]
        exact List.chain'_pair.mpr hm.1
      | cons it2 rest2 =>
        have hnext := ih _ hm.2
        simp only [cursorTrace] at hnext ⊢
        exact List.chain'_cons.mpr ⟨hm.1, hnext⟩
  · intro L pages stored anchors0 hne hcur
    have hlen : 0 < pages.length := List.length_pos.mpr hne
    unfold initialBatchState
    dsimp only
    rcases hsa : sortAnchors anchors0 with _ | ⟨first, rest⟩
    · unfold initBatchCursor
      refine ⟨hne, ?_, ?_⟩
      · rcases hst : stored.activeColumn with _ | cur
        · simpa using hlen
        · simpa using hcur cur hst
      · intro _ a ha
        simp at ha
    · unfold initBatchCursor
      dsimp only
      refine ⟨hne, ?_, ?_⟩
      · show min first.pageIndex (pages.length - 1) < pages.length
        have : min first.pageIndex (pages.length - 1) ≤ pages.length - 1 := min_le_right _ _
        omega
      · intro _ a ha
        rw [show (((first :: rest).enum.filter fun ia =>
            !(decide (ia.1 ≠ 0) &&
              (decide (ia.2.pageIndex = min first.pageIndex (pages.length - 1)) &&
                decide (ia.2.columnIndex = first.columnIndex) &&
                decide (ia.2.top ≤ max L.topMargin first.top)))).map Prod.snd)
            = first :: (rest.filter fun b =>
                !(decide (b.pageIndex = min first.pageIndex (pages.length - 1)) &&
                  decide (b.columnIndex = first.columnIndex) &&
                  decide (b.top ≤ max L.topMargin first.top))) from
          enum_filter_keep_head (fun b =>
            decide (b.pageIndex = min first.pageIndex (pages.length - 1)) &&
            decide (b.columnIndex = first.columnIndex) &&
            decide (b.top ≤ max L.topMargin first.top)) first rest] at ha
        simp only [List.head?_cons, Option.mem_some_iff] at ha
        subst ha
        exact lexLE_refl _

/-- Witness for C2: the cursor trace of a two-item batch on a fresh one-page
document, starting from the batch-initial state, is lexicographically
non-decreasing. -/
theorem forward_only_cursor_witness :
    List.Chain' lexLE (cursorTrace sampleLayout
      (initialBatchState sampleLayout [[]] ⟨[], none⟩ [])
      [⟨"a", 100, 100⟩, ⟨"b", 100, 100⟩]) :=
  forward_only_cursor.1 sampleLayout (initialBatchState sampleLayout [[]] ⟨[], none⟩ [])
    [⟨"a", 100, 100⟩, ⟨"b", 100, 100⟩]
    (forward_only_cursor.2 sampleLayout [[]] ⟨[], none⟩ [] (by simp)
      (fun cur h => nomatch h))
